import Mathlib

/-!
Verification of the songcn wavelength-calibration module.

This file gives a shallow embedding, over exact rationals, of the functions of
`twodspec/calibration.py` and `twodspec/ccd.py` that the claims C1..C10 concern:

* `thar1d_fix` (spectrum sanitization, C6/C7),
* `thar1d_corr2d` (2-D cross-correlation shift estimation, C4),
* `interpolate_wavelength` (coordinate remapping, C8),
* `refine_thar_positions_order` (per-order line refinement, C5),
* `polyval2d` and the coefficient layout of `fit_grating_equation` (C2),
* the iterative rejection loop and the non-iterative branch of
  `fit_grating_equation` (C1/C3),
* a heap-passing model of `fit_grating_equation`'s array copies and in-place
  writes (C9),
* `CCD.subtract` / `CCD.devide` (C10).

Machine floats are modelled as `ℚ`, with IEEE NaN modelled as `Option.none`
where NaN can genuinely arise and matters (failed fits, rejected lines).
External numerical library calls (`scipy.optimize.leastsq`, `curve_fit`,
`splrep`/`splev`, `np.sqrt`) are parameters (oracles) of the embedded
functions; everything the Python source itself computes is embedded
executably.
-/

/-! ### Generic list helpers -/

/-! ### Python slice semantics

`l[a:b]` on a list of length `n` normalizes each bound: a negative bound `i`
becomes `max (n + i) 0`, a non-negative one becomes `min i n`; the selected
indices are `start ≤ j < stop`.  This is the behaviour `thar1d_fix` relies on
for `ind_sat_conv[x, y-conv_len : y+conv_len] = 1` and `thar1d_corr2d` for its
trim windows. -/

/-- Normalize one Python slice bound for a sequence of length `n`. -/
def pyBound (n : ℕ) (i : ℤ) : ℤ :=
  if i < 0 then max ((n : ℤ) + i) 0 else min i (n : ℤ)

/-- Membership of index `j` in the Python slice `[a:b]` of a length-`n` row. -/
def pySliceMem (n : ℕ) (a b : ℤ) (j : ℕ) : Bool :=
  decide (pyBound n a ≤ (j : ℤ)) && decide ((j : ℤ) < pyBound n b)

/-- Python slice `l[a:b]` (step 1) with full negative-bound semantics. -/
def pySlice {α : Type} (l : List α) (a b : ℤ) : List α :=
  ((l.drop (pyBound l.length a).toNat).take
    ((pyBound l.length b) - (pyBound l.length a)).toNat)

/-! ### thar1d_fix (SpectrumSanitizer), calibration.py lines 40-68

Source:
```
ind_sat = thar1d >= sat_count
ind_sat_conv = np.zeros_like(ind_sat)
x_sat, y_sat = np.where(ind_sat)
for i in range(len(x_sat)):
    ind_sat_conv[x_sat[i], y_sat[i] - conv_len:y_sat[i] + conv_len] = 1
ind_neg = thar1d < 0.
ind_bad = np.logical_or(ind_neg, ind_sat_conv)
thar1d_fixed = np.where(ind_bad, 0, thar1d)
```
Each assignment `ind_sat_conv[x, slice] = 1` touches only row `x`, so the
computation is independent per row and the order of assignments is
irrelevant (all write `1`). -/

/-- Saturation-convolution mask of row `r` at column `j`: some sample
`r[y] ≥ sat` has `j` inside the Python slice `[y-cl : y+cl]` of the row. -/
def rowSatMask (cl : ℕ) (sat : ℚ) (r : List ℚ) (j : ℕ) : Bool :=
  (List.range r.length).any (fun y =>
    decide (sat ≤ r.getD y 0) &&
      pySliceMem r.length ((y : ℤ) - (cl : ℤ)) ((y : ℤ) + (cl : ℤ)) j)

/-- Combined bad mask: saturation window or strictly negative sample. -/
def rowBadMask (cl : ℕ) (sat : ℚ) (r : List ℚ) (j : ℕ) : Bool :=
  rowSatMask cl sat r j || decide (r.getD j 0 < 0)

/-- One row of `thar1d_fixed = np.where(ind_bad, 0, thar1d)`. -/
def fixRow (cl : ℕ) (sat : ℚ) (r : List ℚ) : List ℚ :=
  (List.range r.length).map (fun j => if rowBadMask cl sat r j then 0 else r.getD j 0)

/-- Embedding of `thar1d_fix(thar1d, conv_len, sat_count)`. -/
def thar1d_fix (m : List (List ℚ)) (cl : ℕ) (sat : ℚ) : List (List ℚ) :=
  m.map (fixRow cl sat)

/-- Mask that claim C6 describes: a window of width `2*conv_len` centred on
each saturated sample, clipped to the row (no Python wraparound).  This
definition follows the claim's words and is only used for comparison with
the source-derived `thar1d_fix`. -/
def claimedRowSatMask (cl : ℕ) (sat : ℚ) (r : List ℚ) (j : ℕ) : Bool :=
  (List.range r.length).any (fun y =>
    decide (sat ≤ r.getD y 0) &&
      (decide ((y : ℤ) - (cl : ℤ) ≤ (j : ℤ)) && decide ((j : ℤ) < (y : ℤ) + (cl : ℤ))))

/-- Claim-described sanitizer (clipped symmetric windows), for comparison. -/
def claimedFix (m : List (List ℚ)) (cl : ℕ) (sat : ℚ) : List (List ℚ) :=
  m.map (fun r =>
    (List.range r.length).map (fun j =>
      if claimedRowSatMask cl sat r j || decide (r.getD j 0 < 0) then 0 else r.getD j 0))

/-! ### thar1d_corr2d (ShiftEstimator), calibration.py lines 75-129

Source structure: trim bounds `xtrim = (shape[1]*[.2,.8]).astype(int)` (and
the same for y from `shape[0]`), a correlation surface
`corr2d[yofst+y_shiftmax, xofst+x_shiftmax] = mean(fixed[yslice,xslice] * temp[ysl,xsl])`,
then `y_, x_ = np.where(corr2d == np.max(corr2d))` followed by
`x_shift = np.int(x_shiftmax - x_)`, `y_shift = np.int(y_shiftmax - y_)`.
`np.where` lists every maximizing cell in row-major order, and `np.int(...)`
converts a size-1 index array to a scalar; on a size-`≥2` array (tied maxima)
that conversion raises, modelled as `none`. -/

/-- The value `np.max` computes on a non-empty list (0 for the empty list,
where numpy would raise). -/
def qListMax : List ℚ → ℚ
  | [] => 0
  | x :: xs => xs.foldl max x

/-- Mean of the elementwise product of two equal-shape blocks,
`np.mean(A * B)`. -/
def meanProd (A B : List (List ℚ)) : ℚ :=
  ((((A.zip B).map (fun p => (p.1.zip p.2).map (fun q => q.1 * q.2))).map
      (fun row => row.sum)).sum) /
    ((((A.zip B).map (fun p => (p.1.zip p.2).map (fun q => q.1 * q.2))).map
      (fun row => row.length)).sum : ℚ)

/-- Rectangular sub-block `m[r0:r1, c0:c1]` by Python slicing on both axes. -/
def subBlock (m : List (List ℚ)) (r0 r1 c0 c1 : ℤ) : List (List ℚ) :=
  (pySlice m r0 r1).map (fun row => pySlice row c0 c1)

/-- The 2-D correlation surface of `thar1d_corr2d`: entry
`[yofst + ysm][xofst + xsm]` holds the windowed mean product at trial offset
`(xofst, yofst)`.  The trim bound `(shape * .2).astype(int)` truncates the
non-negative product toward zero, which for exact arithmetic is the natural
division `shape * 2 / 10` (and likewise `shape * 8 / 10`). -/
def corr2dOf (f t : List (List ℚ)) (xsm ysm : ℕ) : List (List ℚ) :=
  (List.range (2 * ysm + 1)).map (fun ri =>
    (List.range (2 * xsm + 1)).map (fun ci =>
      meanProd
        (subBlock f
          ((f.length * 2 / 10 : ℕ) + ((ri : ℤ) - (ysm : ℤ)))
          ((f.length * 8 / 10 : ℕ) + ((ri : ℤ) - (ysm : ℤ)))
          (((f.headD []).length * 2 / 10 : ℕ) + ((ci : ℤ) - (xsm : ℤ)))
          (((f.headD []).length * 8 / 10 : ℕ) + ((ci : ℤ) - (xsm : ℤ))))
        (subBlock t
          ((f.length * 2 / 10 : ℕ) : ℤ) ((f.length * 8 / 10 : ℕ) : ℤ)
          (((f.headD []).length * 2 / 10 : ℕ) : ℤ)
          (((f.headD []).length * 8 / 10 : ℕ) : ℤ))))

/-- Row-major list of the positions where the surface attains its maximum,
as `np.where(corr2d == np.max(corr2d))` produces them. -/
def maxPositions (m : List (List ℚ)) : List (ℕ × ℕ) :=
  (List.range m.length).flatMap (fun r =>
    (List.range (m.getD r []).length).filterMap (fun c =>
      if (m.getD r []).getD c 0 = qListMax m.flatten then some (r, c) else none))

/-- Conversion of an index array to a Python scalar (`np.int(arr)`): defined
only for size-1 arrays; on any other size the conversion raises. -/
def npIntScalar (l : List ℤ) : Option ℤ :=
  match l with
  | [a] => some a
  | _ => none

/-- Embedding of `thar1d_corr2d`: the returned shift (or `none` when the
scalar conversion of a tied-maximum index array fails) and the surface. -/
def thar1d_corr2d (f t : List (List ℚ)) (xsm ysm : ℕ) :
    Option (ℤ × ℤ) × List (List ℚ) :=
  (match npIntScalar ((maxPositions (corr2dOf f t xsm ysm)).map
            (fun p => (xsm : ℤ) - (p.2 : ℤ))),
         npIntScalar ((maxPositions (corr2dOf f t xsm ysm)).map
            (fun p => (ysm : ℤ) - (p.1 : ℤ))) with
   | some a, some b => some (a, b)
   | _, _ => none,
   corr2dOf f t xsm ysm)

/-! ### interpolate_wavelength (CoordinateRemapper), calibration.py lines 136-159

The cubic spline build-and-evaluate pair `splev(pts, splrep(xs, ys, k=3, s=0))`
is an external scipy call; it is modelled by an oracle
`spl : List ℚ → List ℚ → ℚ → ℚ` taking the knot abscissae, the knot values and
one evaluation point.  The source never inspects the spline object itself, so
this interface captures everything the function does with it.  The wavelength
grid `w` has `w.length` order rows; `ycoord_yshift` has
`w.shape[0] + thar1d_fixed.shape[0] - thar_temp.shape[0]` entries (numpy
raises on the column assignment unless that count equals the fixed frame's
row count, the regime in which the function is used). -/

/-- The coordinate list `np.arange(n)` as rationals. -/
def qRange (n : ℕ) : List ℚ :=
  (List.range n).map Nat.cast

/-- Embedding of `interpolate_wavelength(w, shift, thar_temp, thar1d_fixed)`;
`tempRows`/`fixedRows` are the row counts of the template and fixed spectra. -/
def interpolate_wavelength (spl : List ℚ → List ℚ → ℚ → ℚ) (w : List (List ℚ))
    (xshift yshift : ℤ) (fixedRows tempRows : ℕ) : List (List ℚ) :=
  (List.range fixedRows).map (fun i =>
    (List.range (w.headD []).length).map (fun j =>
      (((qRange ((w.length : ℤ) + (fixedRows : ℤ) - (tempRows : ℤ)).toNat).map
          (fun q => q + (yshift : ℚ))).map
        (spl (qRange w.length)
          ((w.map (fun row =>
            ((qRange (w.headD []).length).map (fun q => q + (xshift : ℚ))).map
              (spl (qRange (w.headD []).length) row))).map
            (fun row => row.getD j 0)))).getD i 0))

/-- A concrete spline operator used only to witness `c8_remap_identity`: it
looks the evaluation point up by its numerator, which on the integer-knot
grids `qRange n` interpolates exactly through every knot. -/
def numSpl (_ ys : List ℚ) (t : ℚ) : ℚ :=
  ys.getD t.num.toNat 0

/-! ### refine_thar_positions_order (LineRefiner), calibration.py lines 223-272

Per order the function returns `None` immediately when the filtered catalog
is empty; otherwise it fits each catalog line with `curve_fit` (a
`RuntimeError` is caught and recorded as all-NaN parameters), then builds the
pixel-from-wavelength interpolant: `splrep(wave, xcoord)` when
`np.all(np.diff(wave) >= 0)`, `splrep(wave[::-1], xcoord[::-1])` when
`np.all(np.diff(wave) <= 0)`, and otherwise raises `ValueError`.  `curve_fit`
and `splrep` are external solvers: `curve_fit` is an oracle returning `none`
on non-convergence, and the interpolant is recorded by the exact arrays
handed to `splrep`. -/

/-- Per-line fit parameters: `some (popt, pcov)` on convergence, `none` for a
caught `RuntimeError` (recorded as NaN rows). -/
def poptOf (cf : ℚ → List ℚ → List ℚ → Option (List ℚ × List ℚ))
    (wave thar : List ℚ) (fw : ℚ) (line : ℚ) : List (Option ℚ) × List (Option ℚ) :=
  match cf line
      (((wave.zip thar).filter
        (fun p => decide (line - fw < p.1) && decide (p.1 < line + fw))).map Prod.fst)
      (((wave.zip thar).filter
        (fun p => decide (line - fw < p.1) && decide (p.1 < line + fw))).map Prod.snd) with
  | some (popt, pcov) => (popt.map some, pcov.map some)
  | none => (List.replicate 4 none, List.replicate 4 none)

/-- Check `np.all(np.diff(l) >= 0)`: each difference `l[i+1] - l[i]` is
non-negative, i.e. `l[i] ≤ l[i+1]`. -/
def nondecrB (l : List ℚ) : Bool :=
  (List.zipWith (fun a b => decide (a ≤ b)) l l.tail).all id

/-- Check `np.all(np.diff(l) <= 0)`: each difference `l[i+1] - l[i]` is
non-positive, i.e. `l[i+1] ≤ l[i]`. -/
def nonincrB (l : List ℚ) : Bool :=
  (List.zipWith (fun a b => decide (b ≤ a)) l l.tail).all id

/-- Data of a successfully refined order: the two arrays handed to `splrep`
for the inversion interpolant, and the per-line fit parameters. -/
structure OrderFit where
  tckWave : List ℚ
  tckX : List ℚ
  popts : List (List (Option ℚ) × List (Option ℚ))
deriving DecidableEq

/-- Result of `refine_thar_positions_order`: `null` models the Python `None`
return for an empty catalog, `err` the raised `ValueError`. -/
inductive RefineRes where
  | null
  | err
  | ok (r : OrderFit)
deriving DecidableEq

/-- Embedding of `refine_thar_positions_order` (control flow and the arrays
the inversion interpolant is built on). -/
def refine_thar_positions_order (cf : ℚ → List ℚ → List ℚ → Option (List ℚ × List ℚ))
    (wave xcoord thar tharList : List ℚ) (fw : ℚ) : RefineRes :=
  if tharList.isEmpty then RefineRes.null
  else if nondecrB wave then
    RefineRes.ok ⟨wave, xcoord, tharList.map (poptOf cf wave thar fw)⟩
  else if nonincrB wave then
    RefineRes.ok ⟨wave.reverse, xcoord.reverse, tharList.map (poptOf cf wave thar fw)⟩
  else RefineRes.err

/-! ### polyval2d and the fitted coefficient layout, calibration.py 279-291, 366

Source:
```
ij = itertools.product(range(orderx + 1), range(ordery + 1))
z = np.zeros_like(x)
for a, (i, j) in zip(coefs.flatten(), ij):
    if i + j < np.max((orderx, ordery)):
        z += a * x ** i * y ** j
```
with `orderx, ordery = orders` as passed (`poly_order`, e.g. `(3, 5)`), and in
`fit_grating_equation` the coefficient array is created as
`x0 = np.zeros(poly_order)` — shape `poly_order` itself, i.e. `orderx * ordery`
entries — while `ij` enumerates `(orderx+1)*(ordery+1)` pairs; `zip`
truncates to the shorter sequence. -/

/-- Row-major pair enumeration
`itertools.product(range(orderx+1), range(ordery+1))`. -/
def ijPairs (ox oy : ℕ) : List (ℕ × ℕ) :=
  (List.range (ox + 1)).flatMap (fun i => (List.range (oy + 1)).map (fun j => (i, j)))

/-- Embedding of `polyval2d(x, y, coefs, orders)` with flattened coefficients. -/
def polyval2d (x y : ℚ) (coefs : List ℚ) (ox oy : ℕ) : ℚ :=
  (coefs.zip (ijPairs ox oy)).foldl
    (fun z p => if p.2.1 + p.2.2 < max ox oy then z + p.1 * x ^ p.2.1 * y ^ p.2.2 else z) 0

/-- The initial coefficient array `x0 = np.zeros(poly_order)` of
`fit_grating_equation` (shape `poly_order`, NOT `poly_order + 1`). -/
def mkX0 (ox oy : ℕ) : List (List ℚ) :=
  List.replicate ox (List.replicate oy (0 : ℚ))

/-- Surface evaluation as claim C2 describes it: every coefficient of the
2-D array paired with the `(i, j)` of its own array position.  Used only for
comparison with the source-derived `polyval2d`. -/
def claimedPolyval2d (x y : ℚ) (c : List (List ℚ)) (ox oy : ℕ) : ℚ :=
  ((List.range c.length).map (fun i =>
    ((List.range (c.getD i []).length).map (fun j =>
      if i + j < max ox oy then (c.getD i []).getD j 0 * x ^ i * y ^ j else 0)).sum)).sum

/-! ### fit_grating_equation: rejection loop and non-iterative branch,
calibration.py lines 336-433

The working arrays of the loop (after the pre-filter copies): the
standardized coordinates and orders, the standardized product `ml_s`, the
boolean `weight`, the (copied) `lc_thar`, the raw `lc_order`, and the product
scaler `(ml_mean, ml_std)`.  IEEE NaN is `none`.  `scipy.optimize.leastsq`
is an oracle `Loss → List ℚ → FitState → List ℚ` mapping the loss function
used (`residual` or `residual_lar`), the start vector and the current data to
a coefficient vector; everything else each iteration computes —
`polyval2d`, `standardize_inverse`, the differences, `np.nanmedian`,
`np.unique`-based per-order weighted counts, `possible_outlier`,
`np.nanargmax`, and the in-place rejection writes — is embedded
executably below. -/

/-- The loss function minimized by a `leastsq` call: `residual` (chi-square)
or `residual_lar` (square root of the absolute weighted residual). -/
inductive Loss where
  | chi2
  | lar
deriving DecidableEq

/-- `if lar: residual_lar else: residual`. -/
def lossOf (lar : Bool) : Loss :=
  if lar then Loss.lar else Loss.chi2

/-- The mutable data of `fit_grating_equation`'s rejection loop. -/
structure FitState where
  coord_s : List (Option ℚ)
  order_s : List (Option ℚ)
  mls : List (Option ℚ)
  weight : List Bool
  thar : List (Option ℚ)
  order : List (Option ℚ)
  mlMean : ℚ
  mlStd : ℚ
deriving DecidableEq

/-- Oracle type for `scipy.optimize.leastsq`. -/
def LsqOracle : Type :=
  Loss → List ℚ → FitState → List ℚ

/-- Ascending insertion (used to sort for the median, as `np.sort` does). -/
def insertQ (x : ℚ) : List ℚ → List ℚ
  | [] => [x]
  | y :: ys => if x ≤ y then x :: y :: ys else y :: insertQ x ys

/-- Ascending sort of rationals. -/
def sortQ : List ℚ → List ℚ
  | [] => []
  | x :: xs => insertQ x (sortQ xs)

/-- `np.nanmedian`: the median of the non-NaN entries (middle of the sorted
values, mean of the two middles for an even count), NaN when every entry is
NaN. -/
def nanmedian (l : List (Option ℚ)) : Option ℚ :=
  if (l.filterMap id).isEmpty then none
  else some
    (if (sortQ (l.filterMap id)).length % 2 = 1
     then (sortQ (l.filterMap id)).getD ((sortQ (l.filterMap id)).length / 2) 0
     else ((sortQ (l.filterMap id)).getD ((sortQ (l.filterMap id)).length / 2 - 1) 0 +
           (sortQ (l.filterMap id)).getD ((sortQ (l.filterMap id)).length / 2) 0) / 2)

/-- `fitted_wave[i] = standardize_inverse(polyval2d(...), ml_mean, ml_std)
/ lc_order[i]`, NaN-propagating. -/
def fittedWaveAt (cf : List ℚ) (ox oy : ℕ) (st : FitState) (i : ℕ) : Option ℚ :=
  match st.coord_s.getD i none, st.order_s.getD i none, st.order.getD i none with
  | some xc, some yc, some od =>
      some ((polyval2d xc yc cf ox oy * st.mlStd + st.mlMean) / od)
  | _, _, _ => none

/-- `fitted_wave_diff = fitted_wave - lc_thar` (NaN exactly where a line was
rejected or its inputs are NaN). -/
def diffList (cf : List ℚ) (ox oy : ℕ) (st : FitState) : List (Option ℚ) :=
  (List.range st.thar.length).map (fun i =>
    match fittedWaveAt cf ox oy st i, st.thar.getD i none with
    | some fw, some t => some (fw - t)
    | _, _ => none)

/-- `wave_dev[i] = |fitted_wave_diff[i] - nanmedian(fitted_wave_diff)|`. -/
def devAt (med d : Option ℚ) : Option ℚ :=
  match d, med with
  | some a, some m => some |a - m|
  | _, _ => none

/-- Number of positively-weighted lines whose standardized order equals `o`
(`np.sum(weight[lc_order_s == _] > 0)`). -/
def countOrderVal (st : FitState) (o : ℚ) : ℕ :=
  ((Finset.range st.weight.length).filter
    (fun j => st.order_s.getD j none = some o ∧ st.weight.getD j false = true)).card

/-- `lc_order_s_left[i]`: the weighted-line count of line `i`'s own order
class (0 for a NaN order value, which compares unequal to everything). -/
def countAt (st : FitState) (i : ℕ) : ℕ :=
  match st.order_s.getD i none with
  | some o => countOrderVal st o
  | none => 0

/-- `possible_outlier = wave_dev * (wave_dev > max_dev_threshold) *
(lc_order_s_left > nl_eachorder)`. -/
def poList (cf : List ℚ) (ox oy : ℕ) (maxDev : ℚ) (nl : ℤ) (st : FitState) :
    List (Option ℚ) :=
  (List.range (diffList cf ox oy st).length).map (fun i =>
    (devAt (nanmedian (diffList cf ox oy st)) ((diffList cf ox oy st).getD i none)).map
      (fun v => v * (if maxDev < v then 1 else 0) *
        (if nl < (countAt st i : ℤ) then 1 else 0)))

/-- `np.any(possible_outlier > 0)` (NaN compares false). -/
def anyPosB (l : List (Option ℚ)) : Bool :=
  l.any (fun o => match o with | some v => decide (0 < v) | none => false)

/-- First maximum among the non-NaN entries with its index
(`np.nanargmax` tie-break: first occurrence). -/
def argmaxO : List (Option ℚ) → Option (ℕ × ℚ)
  | [] => none
  | none :: rest => (argmaxO rest).map (fun p => (p.1 + 1, p.2))
  | some v :: rest =>
    match argmaxO rest with
    | none => some (0, v)
    | some p => if v < p.2 then some (p.1 + 1, p.2) else some (0, v)

/-- `np.nanargmax` (index only). -/
def nanargmax (l : List (Option ℚ)) : Option ℕ :=
  (argmaxO l).map Prod.fst

/-- One iteration's rejection decision: the index zeroed this round, `none`
when no `possible_outlier` entry is positive (the loop breaks). -/
def stepRejected (lar : Bool) (lsq : LsqOracle) (x0 : List ℚ) (ox oy : ℕ)
    (maxDev : ℚ) (nl : ℤ) (st : FitState) : Option ℕ :=
  if anyPosB (poList (lsq (lossOf lar) x0 st) ox oy maxDev nl st)
  then nanargmax (poList (lsq (lossOf lar) x0 st) ox oy maxDev nl st)
  else none

/-- The in-place writes of one rejection:
`weight[i] = 0; ml_s[i] = nan; lc_thar[i] = nan`. -/
def rejectAt (st : FitState) (i : ℕ) : FitState :=
  { st with
    weight := st.weight.set i false
    mls := st.mls.set i none
    thar := st.thar.set i none }

/-- One loop iteration as (rejected index, next state). -/
def stepResult (lar : Bool) (lsq : LsqOracle) (x0 : List ℚ) (ox oy : ℕ)
    (maxDev : ℚ) (nl : ℤ) (st : FitState) : Option ℕ × FitState :=
  match stepRejected lar lsq x0 ox oy maxDev nl st with
  | some i => (some i, rejectAt st i)
  | none => (none, st)

/-- The `while n_loop < n_iter` rejection loop (breaks when no candidate). -/
def rejectLoop (lar : Bool) (lsq : LsqOracle) (x0 : List ℚ) (ox oy : ℕ)
    (maxDev : ℚ) (nl : ℤ) : ℕ → FitState → FitState
  | 0, st => st
  | Nat.succ k, st =>
    match stepRejected lar lsq x0 ox oy maxDev nl st with
    | some i => rejectLoop lar lsq x0 ox oy maxDev nl k (rejectAt st i)
    | none => st

/-- Concrete two-line state used to witness `c1_rejection_loop`: two lines of
the same order, catalog wavelengths 0 and 10, a constant zero fit. -/
def c1State : FitState :=
  ⟨[some 0, some 0], [some 1, some 1], [some 0, some 0], [true, true],
   [some 0, some 10], [some 1, some 1], 0, 1⟩

/-- The bulk rejection mask of the non-iterative branch:
`ind_kick = np.abs(fitted_wave_diff - np.nanmedian(fitted_wave_diff)) >
max_dev_threshold` (NaN compares false). -/
def bulkKickList (cf : List ℚ) (ox oy : ℕ) (maxDev : ℚ) (st : FitState) : List Bool :=
  (List.range (diffList cf ox oy st).length).map (fun i =>
    match devAt (nanmedian (diffList cf ox oy st)) ((diffList cf ox oy st).getD i none) with
    | some v => decide (maxDev < v)
    | none => false)

/-- The bulk writes `weight[ind_kick] = 0; ml_s[ind_kick] = nan;
lc_thar[ind_kick] = nan`. -/
def bulkReject (kick : List Bool) (st : FitState) : FitState :=
  { st with
    weight := (List.range st.weight.length).map
      (fun j => if kick.getD j false then false else st.weight.getD j false)
    mls := (List.range st.mls.length).map
      (fun j => if kick.getD j false then none else st.mls.getD j none)
    thar := (List.range st.thar.length).map
      (fun j => if kick.getD j false then none else st.thar.getD j none) }

/-- The non-iterative branch of `fit_grating_equation` (`n_iter <= 0`): one
fit whose loss is `residual_lar` only when `lar` is set, the bulk rejection,
then one refit that ALWAYS uses `residual_lar`, restarted from `x0`.  Returns
the final coefficients, the post-rejection state, and the trace of losses
minimized, in order. -/
def fitNoIter (lar : Bool) (lsq : LsqOracle) (x0 : List ℚ) (ox oy : ℕ) (maxDev : ℚ)
    (st : FitState) : List ℚ × FitState × List Loss :=
  (lsq Loss.lar x0 (bulkReject (bulkKickList (lsq (lossOf lar) x0 st) ox oy maxDev st) st),
   bulkReject (bulkKickList (lsq (lossOf lar) x0 st) ox oy maxDev st) st,
   [lossOf lar, Loss.lar])

/-! ### Heap model of fit_grating_equation's array copies and writes (C9)

Python semantics modelled: the caller's arrays live in a store indexed by
references; boolean-mask (advanced) indexing such as
`lc_coord = lc_coord[ind_good_thar]` allocates a FRESH array and rebinds the
local name; `standardize` returns fresh arrays; the rejection writes
`weight[i] = 0`, `ml_s[i] = nan`, `lc_thar[i] = nan` (and the bulk variants
of the non-iterative branch) mutate the store in place at the refs the local
names hold.  `np.nanstd`'s square root is an oracle `sqrtO` (its value is
irrelevant to aliasing).  The `try/except` around the quality gate falls
back to an all-true mask when `popt`/`pcov` do not have the required shape. -/

/-- A stored numpy array: a float 1-D array, a bool 1-D array, or a float
2-D array. -/
inductive PyVal where
  | vQ (l : List (Option ℚ))
  | vB (l : List Bool)
  | vM (m : List (List (Option ℚ)))
deriving DecidableEq

/-- Read a float array out of the store. -/
def getQ (h : List PyVal) (r : ℕ) : List (Option ℚ) :=
  match h.getD r (PyVal.vQ []) with
  | PyVal.vQ l => l
  | _ => []

/-- Read a bool array out of the store. -/
def getB (h : List PyVal) (r : ℕ) : List Bool :=
  match h.getD r (PyVal.vQ []) with
  | PyVal.vB l => l
  | _ => []

/-- Read a 2-D float array out of the store. -/
def getM (h : List PyVal) (r : ℕ) : List (List (Option ℚ)) :=
  match h.getD r (PyVal.vQ []) with
  | PyVal.vM m => m
  | _ => []

/-- Allocate a fresh array: append to the store, return the new store and
the fresh reference. -/
def halloc (h : List PyVal) (v : PyVal) : List PyVal × ℕ :=
  (h ++ [v], h.length)

/-- The comparison `x < 1.0` on a possibly-NaN value. -/
def optLtOne (o : Option ℚ) : Bool :=
  match o with
  | some x => decide (x < 1)
  | none => false

/-- The quality gate `ind_good_thar = ind_good_thar0 * np.isfinite(lc_coord)
* (popt[:,3] < 1.0) * (pcov[:,2] < 1.0)` with `ind_good_thar0 = None`
(all-true); the enclosing `try/except` falls back to all-true when the
parameter arrays do not have the required shape. -/
def goodMask (coord : List (Option ℚ)) (popt pcov : List (List (Option ℚ))) : List Bool :=
  if popt.length = coord.length ∧ pcov.length = coord.length ∧
      popt.all (fun row => decide (4 ≤ row.length)) ∧
      pcov.all (fun row => decide (3 ≤ row.length)) then
    (List.range coord.length).map (fun i =>
      (coord.getD i none).isSome && optLtOne ((popt.getD i []).getD 3 none) &&
        optLtOne ((pcov.getD i []).getD 2 none))
  else List.replicate coord.length true

/-- Boolean-mask advanced indexing `l[mask]`: a FRESH array of the selected
entries. -/
def maskSelect (l : List (Option ℚ)) (mask : List Bool) : List (Option ℚ) :=
  (l.zip mask).filterMap (fun p => if p.2 then some p.1 else none)

/-- Boolean-mask row selection `m[mask, col]`-style for the 2-D `popt`. -/
def maskSelectRows (l : List (List (Option ℚ))) (mask : List Bool) :
    List (List (Option ℚ)) :=
  (l.zip mask).filterMap (fun p => if p.2 then some p.1 else none)

/-- `weight = popt[ind_good_thar, 1] / popt[ind_good_thar, 0]; weight =
weight > 0` — with numpy float division: `a/0` is `±inf` (compares by the
sign of `a`) and `0/0`/NaN operands compare false. -/
def weightInit (popt : List (List (Option ℚ))) (mask : List Bool) : List Bool :=
  (maskSelectRows popt mask).map (fun row =>
    match row.getD 1 none, row.getD 0 none with
    | some a, some b => if b = 0 then decide (0 < a) else decide (0 < a / b)
    | _, _ => false)

/-- `np.nanmean`. -/
def nanmeanO (l : List (Option ℚ)) : ℚ :=
  (l.filterMap id).sum / ((l.filterMap id).length : ℚ)

/-- The variance under `np.nanstd` (its square root is taken by the oracle). -/
def nanvarO (l : List (Option ℚ)) : ℚ :=
  ((l.filterMap id).map (fun x => (x - nanmeanO l) ^ 2)).sum /
    ((l.filterMap id).length : ℚ)

/-- `standardize(x) = ((x - nanmean(x)) / nanstd(x), nanmean(x), nanstd(x))`:
a fresh standardized array plus the two scaler values. -/
def standardizeQ (sqrtO : ℚ → ℚ) (l : List (Option ℚ)) :
    List (Option ℚ) × ℚ × ℚ :=
  (l.map (fun o => o.map (fun x => (x - nanmeanO l) / sqrtO (nanvarO l))),
   nanmeanO l, sqrtO (nanvarO l))

/-- Elementwise product `lc_thar * lc_order` (NaN-propagating). -/
def optMulL (a b : List (Option ℚ)) : List (Option ℚ) :=
  List.zipWith (fun x y =>
    match x, y with
    | some u, some v => some (u * v)
    | _, _ => none) a b

/-- Assemble the loop's working state from the store. -/
def heapAssemble (h : List PyVal) (rcs ros rml rw rt ro : ℕ) (mlMean mlStd : ℚ) :
    FitState :=
  ⟨getQ h rcs, getQ h ros, getQ h rml, getB h rw, getQ h rt, getQ h ro, mlMean, mlStd⟩

/-- Write the loop's three mutated arrays back to their refs (in place). -/
def heapWrite (h : List PyVal) (rw rml rt : ℕ) (st : FitState) : List PyVal :=
  ((h.set rw (PyVal.vB st.weight)).set rml (PyVal.vQ st.mls)).set rt (PyVal.vQ st.thar)

/-- The rejection loop acting on the store: each iteration re-reads the
working arrays, decides via `stepRejected`, and writes the three single-index
mutations back in place. -/
def heapLoop (lar : Bool) (lsq : LsqOracle) (x0 : List ℚ) (ox oy : ℕ) (maxDev : ℚ)
    (nl : ℤ) (rcs ros rml rw rt ro : ℕ) (mlMean mlStd : ℚ) :
    ℕ → List PyVal → List PyVal
  | 0, h => h
  | Nat.succ k, h =>
    match stepRejected lar lsq x0 ox oy maxDev nl
        (heapAssemble h rcs ros rml rw rt ro mlMean mlStd) with
    | some i => heapLoop lar lsq x0 ox oy maxDev nl rcs ros rml rw rt ro mlMean mlStd k
        (heapWrite h rw rml rt
          (rejectAt (heapAssemble h rcs ros rml rw rt ro mlMean mlStd) i))
    | none => h

/-- Result of the copy-and-standardize prelude of `fit_grating_equation`:
the grown store, the refs of the seven freshly allocated locals, and the
product scaler. -/
structure PreludeOut where
  heap : List PyVal
  rCoordC : ℕ
  rOrderC : ℕ
  rTharC : ℕ
  rCoordS : ℕ
  rOrderS : ℕ
  rMlS : ℕ
  rWeight : ℕ
  mlMean : ℚ
  mlStd : ℚ

/-- Lines 339-363 of calibration.py: the quality gate, the three boolean-mask
copies, the three standardizations and the initial weight, each allocating a
fresh array. -/
def fitPrelude (h0 : List PyVal) (rc rord rt rp rpc : ℕ) (sqrtO : ℚ → ℚ) :
    PreludeOut :=
  let ig := goodMask (getQ h0 rc) (getM h0 rp) (getM h0 rpc)
  let lcCoord := maskSelect (getQ h0 rc) ig
  let lcOrder := maskSelect (getQ h0 rord) ig
  let lcThar := maskSelect (getQ h0 rt) ig
  let p1 := halloc h0 (PyVal.vQ lcCoord)
  let p2 := halloc p1.1 (PyVal.vQ lcOrder)
  let p3 := halloc p2.1 (PyVal.vQ lcThar)
  let scs := standardizeQ sqrtO lcCoord
  let p4 := halloc p3.1 (PyVal.vQ scs.1)
  let sos := standardizeQ sqrtO lcOrder
  let p5 := halloc p4.1 (PyVal.vQ sos.1)
  let sml := standardizeQ sqrtO (optMulL lcThar lcOrder)
  let p6 := halloc p5.1 (PyVal.vQ sml.1)
  let w := weightInit (getM h0 rp) ig
  let p7 := halloc p6.1 (PyVal.vB w)
  ⟨p7.1, p1.2, p2.2, p3.2, p4.2, p5.2, p6.2, p7.2, sml.2.1, sml.2.2⟩

/-- The whole of `fit_grating_equation` at the store level: prelude, the
pre-loop chi-square fit from `np.zeros(poly_order)`, then either the
rejection loop (`n_iter > 0`) or the non-iterative bulk branch. -/
def fit_grating_equation_heap (h0 : List PyVal) (rc rord rt rp rpc : ℕ) (lar : Bool)
    (lsq : LsqOracle) (sqrtO : ℚ → ℚ) (ox oy : ℕ) (maxDev : ℚ) (nl : ℤ)
    (n_iter : ℕ) : List PyVal :=
  let pre := fitPrelude h0 rc rord rt rp rpc sqrtO
  let st0 := heapAssemble pre.heap pre.rCoordS pre.rOrderS pre.rMlS pre.rWeight
    pre.rTharC pre.rOrderC pre.mlMean pre.mlStd
  let x1 := lsq Loss.chi2 ((mkX0 ox oy).flatten) st0
  if 0 < n_iter then
    heapLoop lar lsq x1 ox oy maxDev nl pre.rCoordS pre.rOrderS pre.rMlS pre.rWeight
      pre.rTharC pre.rOrderC pre.mlMean pre.mlStd n_iter pre.heap
  else
    heapWrite pre.heap pre.rWeight pre.rMlS pre.rTharC
      (bulkReject (bulkKickList (lsq (lossOf lar) x1 st0) ox oy maxDev st0) st0)

/-- A concrete five-cell store used to witness `c9_caller_arrays_unchanged`. -/
def c9Heap : List PyVal :=
  [PyVal.vQ [some 1], PyVal.vQ [some 2], PyVal.vQ [some 3],
   PyVal.vM [[some 1, some 1, some 0, some 0]],
   PyVal.vM [[some 0, some 0, some 0]]]

/-! ### CCD arithmetic, ccd.py lines 203-213

`CCD` is an ndarray subclass; `self/ccd1` is numpy elementwise division.
Source:
```
def subtract(self, ccd1):
    " ccd2 = self - ccd1 "
    ccd2 = self/ccd1
    ccd2.copy_info(self)
    return ccd2

def devide(self, ccd1):
    " ccd2 = self / ccd1 "
    ccd2 = self / ccd1
    ccd2.copy_info(self)
    return ccd2
```
`copy_info` only copies metadata attributes; the data values are as modelled
here. -/

/-- `CCD.subtract`: despite its docstring, the body computes `self / ccd1`. -/
def CCD.subtract (a b : List (List ℚ)) : List (List ℚ) :=
  List.zipWith (List.zipWith (fun x y => x / y)) a b

/-- `CCD.devide`: `self / ccd1`. -/
def CCD.devide (a b : List (List ℚ)) : List (List ℚ) :=
  List.zipWith (List.zipWith (fun x y => x / y)) a b

/-- The elementwise quotient of two frames. -/
def ccdQuotient (a b : List (List ℚ)) : List (List ℚ) :=
  List.zipWith (List.zipWith (fun x y => x / y)) a b

/-- The elementwise difference of two frames (the operation the docstring of
`subtract` promises). -/
def ccdDifference (a b : List (List ℚ)) : List (List ℚ) :=
  List.zipWith (List.zipWith (fun x y => x - y)) a b

/-! ### Theorems -/

/-- Value of `(List.range n).map f` at position `j` under `getD`. -/
theorem getD_map_range {β : Type} (n : ℕ) (f : ℕ → β) (j : ℕ) (d : β) :
    ((List.range n).map f).getD j d = if j < n then f j else d := by
  by_cases h : j < n
  · rw [List.getD_eq_getElem _ _ (by simpa using h)]
    simp [h]
  · rw [List.getD_eq_default _ _ (by simpa using Nat.le_of_not_lt h)]
    simp [h]

/-- Length of `(List.range n).map f`. -/
theorem length_map_range {β : Type} (n : ℕ) (f : ℕ → β) :
    ((List.range n).map f).length = n := by simp

theorem fixRow_length (cl : ℕ) (sat : ℚ) (r : List ℚ) :
    (fixRow cl sat r).length = r.length := by
  simp [fixRow]

theorem fixRow_getD (cl : ℕ) (sat : ℚ) (r : List ℚ) (j : ℕ) :
    (fixRow cl sat r).getD j 0 =
      if j < r.length then (if rowBadMask cl sat r j then 0 else r.getD j 0) else 0 := by
  unfold fixRow
  rw [getD_map_range]

/-- Characterization of the bad mask as a proposition. -/
theorem rowBadMask_iff (cl : ℕ) (sat : ℚ) (r : List ℚ) (j : ℕ) :
    rowBadMask cl sat r j = true ↔
      ((∃ y, y < r.length ∧ sat ≤ r.getD y 0 ∧
          pySliceMem r.length ((y : ℤ) - (cl : ℤ)) ((y : ℤ) + (cl : ℤ)) j = true) ∨
        r.getD j 0 < 0) := by
  simp [rowBadMask, rowSatMask, List.any_eq_true, List.mem_range, and_assoc]

/-- Value of `(l.map f).getD` at an in-range index. -/
theorem getD_map {α β : Type} (l : List α) (f : α → β) (i : ℕ) (d : β) (dd : α)
    (hi : i < l.length) : (l.map f).getD i d = f (l.getD i dd) := by
  rw [List.getD_eq_getElem _ _ (by simpa using hi), List.getD_eq_getElem _ _ hi]
  simp

/-- A sample that the sanitizer's mask flags in `fixRow cl sat r` was already
zeroed by the first pass, provided the saturation threshold is positive. -/
theorem fixRow_badMask_zero (cl : ℕ) (sat : ℚ) (hs : 0 < sat) (r : List ℚ) (j : ℕ)
    (h : rowBadMask cl sat (fixRow cl sat r) j = true) :
    (fixRow cl sat r).getD j 0 = 0 := by
  rcases (rowBadMask_iff cl sat (fixRow cl sat r) j).1 h with ⟨y, hy, hsat, hmem⟩ | hneg
  · -- saturated source `y` in the once-fixed row: its value must be the original one
    rw [fixRow_length] at hy hmem
    rw [fixRow_getD, if_pos hy] at hsat
    by_cases hb : rowBadMask cl sat r y = true
    · rw [if_pos hb] at hsat
      exact absurd (lt_of_lt_of_le hs hsat) (lt_irrefl 0)
    · rw [if_neg hb] at hsat
      have hbad : rowBadMask cl sat r j = true := by
        refine (rowBadMask_iff cl sat r j).2 (Or.inl ⟨y, hy, hsat, hmem⟩)
      by_cases hj : j < r.length
      · rw [fixRow_getD, if_pos hj, if_pos hbad]
      · rw [fixRow_getD, if_neg hj]
  · -- negative sample in the once-fixed row: impossible
    exfalso
    by_cases hj : j < r.length
    · rw [fixRow_getD, if_pos hj] at hneg
      by_cases hb : rowBadMask cl sat r j = true
      · rw [if_pos hb] at hneg
        exact absurd hneg (lt_irrefl 0)
      · rw [if_neg hb] at hneg
        exact hb ((rowBadMask_iff cl sat r j).2 (Or.inr hneg))
    · rw [fixRow_getD, if_neg hj] at hneg
      exact absurd hneg (lt_irrefl 0)

/-- Row-level idempotence of the sanitizer for a positive threshold. -/
theorem fixRow_idem (cl : ℕ) (sat : ℚ) (hs : 0 < sat) (r : List ℚ) :
    fixRow cl sat (fixRow cl sat r) = fixRow cl sat r := by
  apply List.ext_getElem
  · rw [fixRow_length, fixRow_length]
  · intro j hj1 hj2
    rw [← List.getD_eq_getElem _ 0 hj1, ← List.getD_eq_getElem _ 0 hj2]
    rw [fixRow_getD]
    rw [fixRow_length] at hj1
    rw [if_pos hj1]
    by_cases hb : rowBadMask cl sat (fixRow cl sat r) j = true
    · rw [if_pos hb, fixRow_badMask_zero cl sat hs r j hb]
    · rw [if_neg hb]

/-- C7 counterexample: with `sat_threshold = 0` (the claim quantifies over
every threshold) the sanitizer is not idempotent: in `[[5, -1, 7]]` with
`conv_len = 1`, the first pass zeroes pixels 1 and 2, and in the second pass
those zeros count as saturated (`0 ≥ 0`) and their windows wipe the row. -/
theorem c7_counterexample :
    thar1d_fix (thar1d_fix [[(5 : ℚ), -1, 7]] 1 0) 1 0 ≠ thar1d_fix [[(5 : ℚ), -1, 7]] 1 0 := by
  decide

/-- C7 (amended): the sanitizer is idempotent for every spectrum and every
`conv_len` provided the saturation threshold is strictly positive:
`fix (fix s) = fix s`. -/
theorem c7_fix_idempotent (m : List (List ℚ)) (cl : ℕ) (sat : ℚ) (hs : 0 < sat) :
    thar1d_fix (thar1d_fix m cl sat) cl sat = thar1d_fix m cl sat := by
  unfold thar1d_fix
  rw [List.map_map]
  exact List.map_congr_left (fun r _ => fixRow_idem cl sat hs r)

/-- Witness for `c7_fix_idempotent` at a concrete spectrum and threshold. -/
theorem c7_witness :
    0 < (1 : ℚ) ∧
      thar1d_fix (thar1d_fix [[(-1 : ℚ), 5]] 1 1) 1 1 = thar1d_fix [[(-1 : ℚ), 5]] 1 1 :=
  ⟨by norm_num, c7_fix_idempotent [[(-1 : ℚ), 5]] 1 1 (by norm_num)⟩

/-- C6 counterexample: a saturated sample at the left edge of a row.  For the
row `[9, 1, 1, 1]` with `conv_len = 2`, `sat = 9`, the Python slice
`[0-2 : 0+2]` normalizes to `[2 : 2]` (negative start wraps), so the code
zeroes nothing, while the claim's clipped symmetric window would zero
pixels 0 and 1. -/
theorem c6_counterexample :
    thar1d_fix [[(9 : ℚ), 1, 1, 1]] 2 9 = [[(9 : ℚ), 1, 1, 1]] ∧
      claimedFix [[(9 : ℚ), 1, 1, 1]] 2 9 = [[(0 : ℚ), 0, 1, 1]] ∧
      thar1d_fix [[(9 : ℚ), 1, 1, 1]] 2 9 ≠ claimedFix [[(9 : ℚ), 1, 1, 1]] 2 9 := by
  refine ⟨by decide, by decide, by decide⟩

/-- C6 (amended): `thar1d_fix` zeroes exactly the union of (a) for each sample
`≥ sat` at pixel `y`, the indices of the Python slice `[y-conv_len : y+conv_len]`
of that sample's order row (width `2*conv_len`, right-clipped to the row, but
with Python negative-start wraparound when `y < conv_len`, which typically
empties the window), and (b) every strictly negative sample; masked samples
become exactly zero, every other sample is unchanged, and the output shape
equals the input shape. -/
theorem c6_fix_exact_mask (m : List (List ℚ)) (cl : ℕ) (sat : ℚ) (i j : ℕ)
    (hi : i < m.length) (hj : j < (m.getD i []).length) :
    ((thar1d_fix m cl sat).getD i []).getD j 0 =
      (if rowBadMask cl sat (m.getD i []) j then 0 else (m.getD i []).getD j 0) ∧
    (rowBadMask cl sat (m.getD i []) j = true ↔
      ((∃ y, y < (m.getD i []).length ∧ sat ≤ (m.getD i []).getD y 0 ∧
          pySliceMem (m.getD i []).length ((y : ℤ) - (cl : ℤ)) ((y : ℤ) + (cl : ℤ)) j = true) ∨
        (m.getD i []).getD j 0 < 0)) ∧
    (thar1d_fix m cl sat).length = m.length ∧
    ((thar1d_fix m cl sat).getD i []).length = (m.getD i []).length := by
  refine ⟨?_, rowBadMask_iff cl sat (m.getD i []) j, by simp [thar1d_fix], ?_⟩
  · unfold thar1d_fix
    rw [getD_map m (fixRow cl sat) i [] [] hi, fixRow_getD, if_pos hj]
  · unfold thar1d_fix
    rw [getD_map m (fixRow cl sat) i [] [] hi, fixRow_length]

/-- Witness for `c6_fix_exact_mask` at a concrete spectrum and indices. -/
theorem c6_witness :
    (0 < [[(3 : ℚ)]].length ∧ 0 < ([[(3 : ℚ)]].getD 0 []).length) ∧
      ((thar1d_fix [[(3 : ℚ)]] 1 5).getD 0 []).getD 0 0 =
        (if rowBadMask 1 5 ([[(3 : ℚ)]].getD 0 []) 0 then 0
         else ([[(3 : ℚ)]].getD 0 []).getD 0 0) :=
  ⟨⟨by decide, by decide⟩, (c6_fix_exact_mask [[(3 : ℚ)]] 1 5 0 0 (by decide) (by decide)).1⟩

theorem foldl_max_init_le (l : List ℚ) (b : ℚ) : b ≤ l.foldl max b := by
  induction l generalizing b with
  | nil => exact le_refl b
  | cons a l ih => exact le_trans (le_max_left b a) (ih (max b a))

theorem mem_le_foldl_max (l : List ℚ) (b y : ℚ) (h : y ∈ l) : y ≤ l.foldl max b := by
  induction l generalizing b with
  | nil => cases h
  | cons a l ih =>
    rcases List.mem_cons.1 h with rfl | hy
    · exact le_trans (le_max_right b y) (foldl_max_init_le l (max b y))
    · exact ih (max b a) hy

theorem mem_le_qListMax (l : List ℚ) (y : ℚ) (h : y ∈ l) : y ≤ qListMax l := by
  cases l with
  | nil => cases h
  | cons x xs =>
    rcases List.mem_cons.1 h with rfl | hy
    · exact foldl_max_init_le xs y
    · exact mem_le_foldl_max xs x y hy

theorem mem_maxPositions (m : List (List ℚ)) (r c : ℕ)
    (h : (r, c) ∈ maxPositions m) :
    r < m.length ∧ c < (m.getD r []).length ∧
      (m.getD r []).getD c 0 = qListMax m.flatten := by
  unfold maxPositions at h
  rcases List.mem_flatMap.1 h with ⟨r0, hr0, hmem⟩
  rcases List.mem_filterMap.1 hmem with ⟨c0, hc0, hval⟩
  by_cases heq : (m.getD r0 []).getD c0 0 = qListMax m.flatten
  · rw [if_pos heq] at hval
    have hrc : r0 = r ∧ c0 = c := by simpa using hval
    obtain ⟨rfl, rfl⟩ := hrc
    exact ⟨List.mem_range.1 hr0, List.mem_range.1 hc0, heq⟩
  · rw [if_neg heq] at hval
    cases hval

/-- C4 counterexample: two all-zero 5x5 spectra.  Every cell of the 3x3
correlation surface ties for the maximum, so `np.where` returns 9 positions
and the size-1 scalar conversion fails (raises) instead of returning the
first maximum in row-major order as the claim states. -/
theorem c4_counterexample :
    2 ≤ (maxPositions (corr2dOf
          [[(0 : ℚ), 0, 0, 0, 0], [0, 0, 0, 0, 0], [0, 0, 0, 0, 0],
           [0, 0, 0, 0, 0], [0, 0, 0, 0, 0]]
          [[(0 : ℚ), 0, 0, 0, 0], [0, 0, 0, 0, 0], [0, 0, 0, 0, 0],
           [0, 0, 0, 0, 0], [0, 0, 0, 0, 0]] 1 1)).length ∧
    (thar1d_corr2d
          [[(0 : ℚ), 0, 0, 0, 0], [0, 0, 0, 0, 0], [0, 0, 0, 0, 0],
           [0, 0, 0, 0, 0], [0, 0, 0, 0, 0]]
          [[(0 : ℚ), 0, 0, 0, 0], [0, 0, 0, 0, 0], [0, 0, 0, 0, 0],
           [0, 0, 0, 0, 0], [0, 0, 0, 0, 0]] 1 1).1 = none := by
  have h : corr2dOf
      [[(0 : ℚ), 0, 0, 0, 0], [0, 0, 0, 0, 0], [0, 0, 0, 0, 0],
       [0, 0, 0, 0, 0], [0, 0, 0, 0, 0]]
      [[(0 : ℚ), 0, 0, 0, 0], [0, 0, 0, 0, 0], [0, 0, 0, 0, 0],
       [0, 0, 0, 0, 0], [0, 0, 0, 0, 0]] 1 1 = [[0, 0, 0], [0, 0, 0], [0, 0, 0]] := by
    simp [corr2dOf, meanProd, subBlock, pySlice, pyBound, List.range_succ]
  have hm : maxPositions (corr2dOf
      [[(0 : ℚ), 0, 0, 0, 0], [0, 0, 0, 0, 0], [0, 0, 0, 0, 0],
       [0, 0, 0, 0, 0], [0, 0, 0, 0, 0]]
      [[(0 : ℚ), 0, 0, 0, 0], [0, 0, 0, 0, 0], [0, 0, 0, 0, 0],
       [0, 0, 0, 0, 0], [0, 0, 0, 0, 0]] 1 1) =
      [(0, 0), (0, 1), (0, 2), (1, 0), (1, 1), (1, 2), (2, 0), (2, 1), (2, 2)] := by
    rw [h]
    simp [maxPositions, qListMax, List.range_succ]
  constructor
  · rw [hm]; decide
  · unfold thar1d_corr2d
    rw [hm]
    simp [npIntScalar]

/-- C4 (amended): whenever the correlation surface attains its maximum at a
unique cell `(r, c)`, `thar1d_corr2d` returns the integer shift
`(x_shiftmax - c, y_shiftmax - r)` corresponding to that cell, and that cell's
value dominates every entry of the surface.  When several cells tie, the
size-1 scalar conversion of the index arrays fails (raises `TypeError`)
rather than selecting the first maximum. -/
theorem c4_shift_unique_max (f t : List (List ℚ)) (xsm ysm : ℕ) (r c : ℕ)
    (h : maxPositions (corr2dOf f t xsm ysm) = [(r, c)]) :
    ((thar1d_corr2d f t xsm ysm).1 = some ((xsm : ℤ) - (c : ℤ), (ysm : ℤ) - (r : ℤ)) ∧
      ∀ v ∈ (corr2dOf f t xsm ysm).flatten,
        v ≤ ((corr2dOf f t xsm ysm).getD r []).getD c 0) ∧
    (∀ g u a b, 2 ≤ (maxPositions (corr2dOf g u a b)).length →
      (thar1d_corr2d g u a b).1 = none) := by
  refine ⟨⟨?_, ?_⟩, ?_⟩
  · unfold thar1d_corr2d
    rw [h]
    simp [npIntScalar]
  · intro v hv
    have hmem : (r, c) ∈ maxPositions (corr2dOf f t xsm ysm) := by
      rw [h]; exact List.mem_singleton.2 rfl
    rw [(mem_maxPositions _ r c hmem).2.2]
    exact mem_le_qListMax _ v hv
  · intro g u a b hlen
    unfold thar1d_corr2d
    cases hp : maxPositions (corr2dOf g u a b) with
    | nil => rw [hp] at hlen; simp at hlen
    | cons q rest =>
      cases rest with
      | nil => rw [hp] at hlen; simp at hlen
      | cons q2 rest2 =>
        simp [npIntScalar]

/-- Witness for `c4_shift_unique_max`: two copies of a 5x5 spectrum with a
single spike at (2,2); the surface has its unique maximum at the centre cell
and the recovered shift is (0, 0). -/
theorem c4_witness :
    maxPositions (corr2dOf
        [[(0 : ℚ), 0, 0, 0, 0], [0, 0, 0, 0, 0], [0, 0, 1, 0, 0],
         [0, 0, 0, 0, 0], [0, 0, 0, 0, 0]]
        [[(0 : ℚ), 0, 0, 0, 0], [0, 0, 0, 0, 0], [0, 0, 1, 0, 0],
         [0, 0, 0, 0, 0], [0, 0, 0, 0, 0]] 1 1) = [(1, 1)] ∧
    (thar1d_corr2d
        [[(0 : ℚ), 0, 0, 0, 0], [0, 0, 0, 0, 0], [0, 0, 1, 0, 0],
         [0, 0, 0, 0, 0], [0, 0, 0, 0, 0]]
        [[(0 : ℚ), 0, 0, 0, 0], [0, 0, 0, 0, 0], [0, 0, 1, 0, 0],
         [0, 0, 0, 0, 0], [0, 0, 0, 0, 0]] 1 1).1 = some (0, 0) := by
  have hm : maxPositions (corr2dOf
      [[(0 : ℚ), 0, 0, 0, 0], [0, 0, 0, 0, 0], [0, 0, 1, 0, 0],
       [0, 0, 0, 0, 0], [0, 0, 0, 0, 0]]
      [[(0 : ℚ), 0, 0, 0, 0], [0, 0, 0, 0, 0], [0, 0, 1, 0, 0],
       [0, 0, 0, 0, 0], [0, 0, 0, 0, 0]] 1 1) = [(1, 1)] := by
    have h : corr2dOf
        [[(0 : ℚ), 0, 0, 0, 0], [0, 0, 0, 0, 0], [0, 0, 1, 0, 0],
         [0, 0, 0, 0, 0], [0, 0, 0, 0, 0]]
        [[(0 : ℚ), 0, 0, 0, 0], [0, 0, 0, 0, 0], [0, 0, 1, 0, 0],
         [0, 0, 0, 0, 0], [0, 0, 0, 0, 0]] 1 1 =
        [[0, 0, 0], [0, 1 / 9, 0], [0, 0, 0]] := by
      simp [corr2dOf, meanProd, subBlock, pySlice, pyBound, List.range_succ]
      norm_num
    rw [h]
    simp [maxPositions, qListMax, List.range_succ]
  refine ⟨hm, ?_⟩
  have h := (c4_shift_unique_max
      [[(0 : ℚ), 0, 0, 0, 0], [0, 0, 0, 0, 0], [0, 0, 1, 0, 0],
       [0, 0, 0, 0, 0], [0, 0, 0, 0, 0]]
      [[(0 : ℚ), 0, 0, 0, 0], [0, 0, 0, 0, 0], [0, 0, 1, 0, 0],
       [0, 0, 0, 0, 0], [0, 0, 0, 0, 0]] 1 1 1 1 hm).1.1
  simpa using h

/-- The `i`-th coordinate of `np.arange(n)`. -/
theorem qRange_getElem (n i : ℕ) (h : i < (qRange n).length) :
    (qRange n)[i] = ((i : ℚ)) := by
  simp [qRange]

/-- Evaluating an exactly-interpolating spline at its own knots returns the
knot values. -/
theorem spl_eval_knots (spl : List ℚ → List ℚ → ℚ → ℚ)
    (hspl : ∀ (n : ℕ) (ys : List ℚ), ys.length = n →
      ∀ i, i < n → spl (qRange n) ys ((i : ℚ)) = ys.getD i 0)
    (n : ℕ) (ys : List ℚ) (hlen : ys.length = n) :
    (qRange n).map (spl (qRange n) ys) = ys := by
  apply List.ext_getElem
  · simp [qRange, hlen]
  · intro i h1 h2
    have hin : i < n := by simpa [qRange] using h1
    rw [List.getElem_map, qRange_getElem, hspl n ys hlen i hin,
      List.getD_eq_getElem ys 0 h2]

/-- C8: remapping with shift (0, 0) and identical template/fixed shapes
reproduces the wavelength map exactly, for any spline operator that
interpolates exactly through its knots (degree-3, zero smoothing). -/
theorem c8_remap_identity (spl : List ℚ → List ℚ → ℚ → ℚ) (w : List (List ℚ))
    (hrect : ∀ row ∈ w, row.length = (w.headD []).length)
    (hspl : ∀ (n : ℕ) (ys : List ℚ), ys.length = n →
      ∀ i, i < n → spl (qRange n) ys ((i : ℚ)) = ys.getD i 0) :
    interpolate_wavelength spl w 0 0 w.length w.length = w := by
  unfold interpolate_wavelength
  simp only [Int.cast_zero, add_zero, List.map_id_fun, List.map_id, List.map_id']
  have hwx : w.map (fun row => (qRange (w.headD []).length).map
      (spl (qRange (w.headD []).length) row)) = w := by
    calc w.map (fun row => (qRange (w.headD []).length).map
          (spl (qRange (w.headD []).length) row))
        = w.map id :=
          List.map_congr_left (fun row hrow =>
            spl_eval_knots spl hspl (w.headD []).length row (hrect row hrow))
      _ = w := List.map_id w
  rw [hwx]
  have hlen : (((w.length : ℤ) + (w.length : ℤ) - (w.length : ℤ)).toNat) = w.length := by
    omega
  rw [hlen]
  apply List.ext_getElem
  · simp
  · intro i h1 h2
    rw [List.getElem_map, List.getElem_range]
    apply List.ext_getElem
    · simp only [List.length_map, List.length_range]
      exact (hrect w[i] (List.getElem_mem h2)).symm
    · intro j hj1 hj2
      rw [List.getElem_map, List.getElem_range]
      have hcol : (w.map (fun row => row.getD j 0)).length = w.length := by simp
      rw [spl_eval_knots spl hspl w.length _ hcol]
      rw [getD_map w _ i 0 [] h2]
      rw [List.getD_eq_getElem w [] h2]
      rw [List.getD_eq_getElem _ 0 hj2]

/-- Witness for `c8_remap_identity` at a concrete 2x2 wavelength map. -/
theorem c8_witness :
    interpolate_wavelength numSpl [[(1 : ℚ), 2], [3, 4]] 0 0 2 2 = [[(1 : ℚ), 2], [3, 4]] := by
  have h := c8_remap_identity numSpl [[(1 : ℚ), 2], [3, 4]]
    (by intro row hrow; fin_cases hrow <;> rfl)
    (fun n ys hlen i hi => by simp [numSpl])
  simpa using h

/-- C5 counterexample: with an empty candidate line list the function returns
`None` before the monotonicity check, so a non-monotonic wavelength guess
(here `[0, 1, 0]`) raises no error, refuting "raises an error exactly when
the guess is neither monotonic". -/
theorem c5_counterexample :
    refine_thar_positions_order (fun _ _ _ => none) [0, 1, 0] [0, 1, 2] [0, 0, 0] [] 1 =
      RefineRes.null ∧
    nondecrB [0, 1, 0] = false ∧ nonincrB [0, 1, 0] = false ∧
    refine_thar_positions_order (fun _ _ _ => none) [0, 1, 0] [0, 1, 2] [0, 0, 0] [] 1 ≠
      RefineRes.err := by
  refine ⟨rfl, by decide, by decide, by decide⟩

/-- C5 (amended): for a NONEMPTY candidate line list, per-order refinement
raises an error exactly when the wavelength-vs-pixel guess is neither
monotonically non-decreasing nor monotonically non-increasing; when it is
non-decreasing the interpolant is built on the arrays as given, and when it
is non-increasing (and not non-decreasing) on the reversed arrays.  An order
whose filtered catalog is empty instead returns a null marker with no
monotonicity check. -/
theorem c5_monotonicity_error (cf : ℚ → List ℚ → List ℚ → Option (List ℚ × List ℚ))
    (wave xcoord thar tharList : List ℚ) (fw : ℚ) :
    (tharList.isEmpty = true →
      refine_thar_positions_order cf wave xcoord thar tharList fw = RefineRes.null) ∧
    (tharList ≠ [] →
      ((refine_thar_positions_order cf wave xcoord thar tharList fw = RefineRes.err ↔
        ¬(nondecrB wave = true ∨ nonincrB wave = true)) ∧
      (nondecrB wave = true →
        refine_thar_positions_order cf wave xcoord thar tharList fw =
          RefineRes.ok ⟨wave, xcoord, tharList.map (poptOf cf wave thar fw)⟩) ∧
      (nondecrB wave = false → nonincrB wave = true →
        refine_thar_positions_order cf wave xcoord thar tharList fw =
          RefineRes.ok ⟨wave.reverse, xcoord.reverse,
            tharList.map (poptOf cf wave thar fw)⟩))) := by
  constructor
  · intro hemp
    unfold refine_thar_positions_order
    rw [if_pos hemp]
  · intro hne
    have hempty : tharList.isEmpty = false := by
      cases tharList with
      | nil => exact absurd rfl hne
      | cons a l => rfl
    unfold refine_thar_positions_order
    rw [hempty]
    by_cases h1 : nondecrB wave = true
    · simp [h1]
    · by_cases h2 : nonincrB wave = true
      · simp [h1, h2]
      · simp [h1, h2]

/-- Witness for `c5_monotonicity_error` on a concrete non-decreasing order. -/
theorem c5_witness :
    ((0 : ℚ) :: [1]) ≠ [] ∧
      (nondecrB [(0 : ℚ), 1] = true →
        refine_thar_positions_order (fun _ _ _ => none) [(0 : ℚ), 1] [0, 1] [5, 5] [0, 1] 1 =
          RefineRes.ok ⟨[(0 : ℚ), 1], [0, 1],
            [(0 : ℚ), 1].map (poptOf (fun _ _ _ => none) [(0 : ℚ), 1] [5, 5] 1)⟩) := by
  constructor
  · decide
  · intro hmono
    exact ((c5_monotonicity_error (fun _ _ _ => none) [(0 : ℚ), 1] [0, 1] [5, 5] [0, 1] 1).2
      (by decide)).2.1 hmono

/-- The row-major product enumeration is index division/remainder by
`oy + 1`. -/
theorem ijPairs_eq (ox oy : ℕ) :
    ijPairs ox oy =
      (List.range ((ox + 1) * (oy + 1))).map (fun k => (k / (oy + 1), k % (oy + 1))) := by
  have key : ∀ m : ℕ, (List.range m).flatMap
      (fun i => (List.range (oy + 1)).map (fun j => (i, j))) =
      (List.range (m * (oy + 1))).map (fun k => (k / (oy + 1), k % (oy + 1))) := by
    intro m
    induction m with
    | zero => simp
    | succ m ih =>
      have hsplit : List.range (m * (oy + 1) + (oy + 1)) =
          List.range (m * (oy + 1)) ++ (List.range (oy + 1)).map (fun x => m * (oy + 1) + x) :=
        List.range_add _ _
      rw [List.range_succ, List.flatMap_append, ih, Nat.succ_mul, hsplit, List.map_append]
      congr 1
      simp only [List.flatMap_cons, List.flatMap_nil, List.append_nil]
      rw [List.map_map]
      apply List.map_congr_left
      intro j hj
      have hjlt : j < oy + 1 := List.mem_range.1 hj
      simp only [Function.comp_apply]
      have h1 : (m * (oy + 1) + j) / (oy + 1) = m := by
        rw [Nat.mul_comm m (oy + 1), Nat.mul_add_div (Nat.succ_pos oy),
          Nat.div_eq_of_lt hjlt, Nat.add_zero]
      have h2 : (m * (oy + 1) + j) % (oy + 1) = j := by
        rw [Nat.mul_comm m (oy + 1), Nat.mul_add_mod, Nat.mod_eq_of_lt hjlt]
      rw [h1, h2]
  exact key (ox + 1)

/-- Folding the guarded accumulation of `polyval2d` is summing the guarded
terms. -/
theorem foldl_polyterm (l : List (ℚ × (ℕ × ℕ))) (x y : ℚ) (M : ℕ) (a : ℚ) :
    l.foldl (fun z p => if p.2.1 + p.2.2 < M then z + p.1 * x ^ p.2.1 * y ^ p.2.2 else z) a
      = a + (l.map (fun p =>
          if p.2.1 + p.2.2 < M then p.1 * x ^ p.2.1 * y ^ p.2.2 else 0)).sum := by
  induction l generalizing a with
  | nil => simp
  | cons p l ih =>
    simp only [List.foldl_cons, List.map_cons, List.sum_cons]
    by_cases h : p.2.1 + p.2.2 < M
    · rw [if_pos h, if_pos h, ih]; ring
    · rw [if_neg h, if_neg h, ih]; ring

/-- A mapped list sum as a `Finset.range` sum over `getD` values. -/
theorem sum_map_eq_range {α : Type} (l : List α) (f : α → ℚ) (d : α) :
    (l.map f).sum = ∑ k ∈ Finset.range l.length, f (l.getD k d) := by
  induction l with
  | nil => simp
  | cons a l ih =>
    rw [List.map_cons, List.sum_cons, List.length_cons, Finset.sum_range_succ', ih]
    simp [List.getD]
    ring

/-- Value of a zipped list at an in-range index. -/
theorem zip_getD {α β : Type} (l1 : List α) (l2 : List β) (k : ℕ) (d1 : α) (d2 : β)
    (h1 : k < l1.length) (h2 : k < l2.length) :
    (l1.zip l2).getD k (d1, d2) = (l1.getD k d1, l2.getD k d2) := by
  rw [List.getD_eq_getElem _ _ (by rw [List.length_zip]; exact lt_min h1 h2),
    List.getD_eq_getElem _ _ h1, List.getD_eq_getElem _ _ h2]
  exact List.getElem_zip

/-- C2 counterexample: with `poly_order = (3, 5)` the initial coefficient
array `np.zeros(poly_order)` has 3 rows, not 3+1; and the flat coefficient
at index 5 — array position (1,0), whose own term would be `x^1*y^0` — is
zipped against the pair (0,5) of the row-major `4x6` enumeration, whose
combined degree 5 is not `< max(3,5)`, so the evaluation drops it: the code
yields 0 at `(x, y) = (2, 1)` where the claim's own-(i,j) pairing yields 2. -/
theorem c2_counterexample :
    (mkX0 3 5).length = 3 ∧ (3 : ℕ) ≠ 3 + 1 ∧
    polyval2d 2 1
      (([[0, 0, 0, 0, 0], [1, 0, 0, 0, 0], [0, 0, 0, 0, 0]] : List (List ℚ)).flatten) 3 5 = 0 ∧
    claimedPolyval2d 2 1 [[0, 0, 0, 0, 0], [1, 0, 0, 0, 0], [0, 0, 0, 0, 0]] 3 5 = 2 ∧
    (0 : ℚ) ≠ 2 := by
  refine ⟨by simp [mkX0], by decide, ?_, ?_, by norm_num⟩
  · simp [polyval2d, ijPairs, List.range_succ]
  · simp [claimedPolyval2d, List.range_succ]

/-- C2 (amended): the fitted coefficient array has shape
`(degree_x, degree_y)` — `poly_order` itself, not `(degree_x+1, degree_y+1)`
— and `polyval2d` zips the flattened coefficients against the row-major
`(degree_x+1) x (degree_y+1)` pair enumeration truncated to the shorter
sequence: flat coefficient `k` multiplies
`x^(k div (degree_y+1)) * y^(k mod (degree_y+1))` and contributes exactly
when that pair's combined degree is `< max(degree_x, degree_y)`; coefficients
are NOT paired with the `(i, j)` of their own array position. -/
theorem c2_polyval2d_layout (x y : ℚ) (coefs : List ℚ) (ox oy : ℕ) :
    polyval2d x y coefs ox oy =
      (∑ k ∈ Finset.range (min coefs.length ((ox + 1) * (oy + 1))),
        if k / (oy + 1) + k % (oy + 1) < max ox oy
        then coefs.getD k 0 * x ^ (k / (oy + 1)) * y ^ (k % (oy + 1)) else 0) ∧
    (mkX0 ox oy).length = ox ∧ (mkX0 ox oy).map List.length = List.replicate ox oy := by
  refine ⟨?_, by simp [mkX0], by simp [mkX0]⟩
  unfold polyval2d
  rw [foldl_polyterm, zero_add, sum_map_eq_range _ _ ((0 : ℚ), (0, 0))]
  have hlen : (coefs.zip (ijPairs ox oy)).length =
      min coefs.length ((ox + 1) * (oy + 1)) := by
    rw [List.length_zip, ijPairs_eq]
    simp
  rw [hlen]
  apply Finset.sum_congr rfl
  intro k hk
  have hk1 : k < coefs.length :=
    lt_of_lt_of_le (Finset.mem_range.1 hk) (min_le_left _ _)
  have hkN : k < (ox + 1) * (oy + 1) :=
    lt_of_lt_of_le (Finset.mem_range.1 hk) (min_le_right _ _)
  have hk2 : k < (ijPairs ox oy).length := by
    rw [ijPairs_eq]
    simpa using hkN
  rw [zip_getD coefs (ijPairs ox oy) k 0 (0, 0) hk1 hk2]
  have hij : (ijPairs ox oy).getD k (0, 0) = (k / (oy + 1), k % (oy + 1)) := by
    rw [ijPairs_eq, getD_map_range, if_pos hkN]
  rw [hij]

/-- A list with no non-NaN entry has no argmax. -/
theorem argmaxO_none (l : List (Option ℚ)) (h : argmaxO l = none) :
    ∀ j w, l.getD j none ≠ some w := by
  induction l with
  | nil =>
    intro j w
    simp [List.getD]
  | cons a rest ih =>
    intro j w
    cases a with
    | none =>
      have hr : argmaxO rest = none := by
        by_cases hc : argmaxO rest = none
        · exact hc
        · exfalso
          rcases Option.ne_none_iff_exists.1 hc with ⟨p, hp⟩
          rw [argmaxO, ← hp] at h
          simp at h
      cases j with
      | zero => simp [List.getD]
      | succ j => simpa [List.getD] using ih hr j w
    | some v =>
      exfalso
      rw [argmaxO] at h
      cases hr : argmaxO rest with
      | none => rw [hr] at h; simp at h
      | some p =>
        rw [hr] at h
        dsimp only at h
        by_cases hlt : v < p.2
        · rw [if_pos hlt] at h; simp at h
        · rw [if_neg hlt] at h; simp at h

/-- The argmax entry exists in the list and dominates every non-NaN entry. -/
theorem argmaxO_spec (l : List (Option ℚ)) :
    ∀ i v, argmaxO l = some (i, v) →
      l.getD i none = some v ∧ ∀ j w, l.getD j none = some w → w ≤ v := by
  induction l with
  | nil => intro i v h; simp [argmaxO] at h
  | cons a rest ih =>
    intro i v h
    cases a with
    | none =>
      rw [argmaxO] at h
      rcases Option.map_eq_some'.1 h with ⟨p, hp, hpe⟩
      have hi : i = p.1 + 1 := by
        have := congrArg Prod.fst hpe
        simpa using this.symm
      have hv : v = p.2 := by
        have := congrArg Prod.snd hpe
        simpa using this.symm
      subst hi; subst hv
      rcases ih p.1 p.2 (by rw [hp]) with ⟨h1, h2⟩
      refine ⟨by simpa [List.getD] using h1, ?_⟩
      intro j w hj
      cases j with
      | zero => simp [List.getD] at hj
      | succ j => exact h2 j w (by simpa [List.getD] using hj)
    | some a0 =>
      rw [argmaxO] at h
      cases hr : argmaxO rest with
      | none =>
        rw [hr] at h
        dsimp only at h
        have hi : i = 0 ∧ v = a0 := by
          constructor
          · exact (congrArg Prod.fst (Option.some.inj h)).symm
          · exact (congrArg Prod.snd (Option.some.inj h)).symm
        obtain ⟨rfl, rfl⟩ := hi
        refine ⟨by simp [List.getD], ?_⟩
        intro j w hj
        cases j with
        | zero =>
          simp [List.getD] at hj
          exact le_of_eq hj.symm
        | succ j =>
          exfalso
          exact argmaxO_none rest hr j w (by simpa [List.getD] using hj)
      | some p =>
        rw [hr] at h
        dsimp only at h
        by_cases hlt : a0 < p.2
        · rw [if_pos hlt] at h
          have hi : i = p.1 + 1 ∧ v = p.2 := by
            constructor
            · exact (congrArg Prod.fst (Option.some.inj h)).symm
            · exact (congrArg Prod.snd (Option.some.inj h)).symm
          obtain ⟨rfl, rfl⟩ := hi
          rcases ih p.1 p.2 (by rw [hr]) with ⟨h1, h2⟩
          refine ⟨by simpa [List.getD] using h1, ?_⟩
          intro j w hj
          cases j with
          | zero =>
            simp [List.getD] at hj
            exact le_of_lt (hj ▸ hlt)
          | succ j => exact h2 j w (by simpa [List.getD] using hj)
        · rw [if_neg hlt] at h
          have hi : i = 0 ∧ v = a0 := by
            constructor
            · exact (congrArg Prod.fst (Option.some.inj h)).symm
            · exact (congrArg Prod.snd (Option.some.inj h)).symm
          obtain ⟨rfl, rfl⟩ := hi
          rcases ih p.1 p.2 (by rw [hr]) with ⟨h1, h2⟩
          refine ⟨by simp [List.getD], ?_⟩
          intro j w hj
          cases j with
          | zero =>
            simp [List.getD] at hj
            exact le_of_eq hj.symm
          | succ j =>
            have := h2 j w (by simpa [List.getD] using hj)
            exact le_trans this (le_of_not_lt hlt)

/-- A positive `possible_outlier` entry guarantees the argmax exists and its
value is positive. -/
theorem anyPosB_exists (l : List (Option ℚ)) (h : anyPosB l = true) :
    ∃ j w, l.getD j none = some w ∧ 0 < w := by
  unfold anyPosB at h
  rcases List.any_eq_true.1 h with ⟨x, hx, hpx⟩
  cases x with
  | none => simp at hpx
  | some w =>
    rcases List.mem_iff_getElem.1 hx with ⟨j, hj, hget⟩
    exact ⟨j, w, by rw [List.getD_eq_getElem _ _ hj, hget], by simpa using hpx⟩

theorem getD_set_self {α : Type} (l : List α) (i : ℕ) (a d : α) (h : i < l.length) :
    (l.set i a).getD i d = a := by
  rw [List.getD_eq_getElem?_getD, List.getElem?_set_self h]
  rfl

theorem getD_set_ne {α : Type} (l : List α) (i j : ℕ) (a d : α) (h : i ≠ j) :
    (l.set i a).getD j d = l.getD j d := by
  rw [List.getD_eq_getElem?_getD, List.getElem?_set_ne h, ← List.getD_eq_getElem?_getD]

/-- Zeroing one weight removes at most that line from its own order's count
and leaves every other order's count unchanged. -/
theorem countOrderVal_rejectAt (st : FitState) (i : ℕ) (o : ℚ) :
    countOrderVal (rejectAt st i) o ≤ countOrderVal st o ∧
    countOrderVal st o ≤ countOrderVal (rejectAt st i) o + 1 ∧
    (st.order_s.getD i none ≠ some o →
      countOrderVal (rejectAt st i) o = countOrderVal st o) := by
  have hlen : (rejectAt st i).weight.length = st.weight.length := by
    simp [rejectAt]
  have hB : countOrderVal (rejectAt st i) o =
      ((Finset.range st.weight.length).filter
        (fun j => st.order_s.getD j none = some o ∧
          (st.weight.set i false).getD j false = true)).card := by
    unfold countOrderVal
    rw [hlen]
    rfl
  have hsub : ((Finset.range st.weight.length).filter
      (fun j => st.order_s.getD j none = some o ∧
        (st.weight.set i false).getD j false = true)) ⊆
      ((Finset.range st.weight.length).filter
        (fun j => st.order_s.getD j none = some o ∧ st.weight.getD j false = true)) := by
    intro j hj
    rcases Finset.mem_filter.1 hj with ⟨hjr, hjo, hjw⟩
    refine Finset.mem_filter.2 ⟨hjr, hjo, ?_⟩
    by_cases hji : i = j
    · subst hji
      rw [getD_set_self st.weight i false false
        (lt_of_lt_of_le (Finset.mem_range.1 hjr) (le_refl _))] at hjw
      exact absurd hjw (by simp)
    · rw [getD_set_ne st.weight i j false false hji] at hjw
      exact hjw
  have hsub2 : ((Finset.range st.weight.length).filter
      (fun j => st.order_s.getD j none = some o ∧ st.weight.getD j false = true)) ⊆
      insert i ((Finset.range st.weight.length).filter
        (fun j => st.order_s.getD j none = some o ∧
          (st.weight.set i false).getD j false = true)) := by
    intro j hj
    rcases Finset.mem_filter.1 hj with ⟨hjr, hjo, hjw⟩
    by_cases hji : j = i
    · exact Finset.mem_insert.2 (Or.inl hji)
    · refine Finset.mem_insert.2 (Or.inr (Finset.mem_filter.2 ⟨hjr, hjo, ?_⟩))
      rw [getD_set_ne st.weight i j false false (fun he => hji he.symm)]
      exact hjw
  refine ⟨?_, ?_, ?_⟩
  · rw [hB]
    exact Finset.card_le_card hsub
  · rw [hB]
    exact le_trans (Finset.card_le_card hsub2) (Finset.card_insert_le _ _)
  · intro ho
    rw [hB]
    unfold countOrderVal
    congr 1
    apply Finset.filter_congr
    intro j hjr
    by_cases hji : i = j
    · subst hji
      simp only [List.getD_eq_getElem?_getD] at ho
      simp [ho]
    · rw [getD_set_ne st.weight i j false false hji]

/-- A positive `possible_outlier` value certifies both rejection guards: the
deviation exceeds the threshold and the line's order keeps strictly more than
`nl_eachorder` weighted lines. -/
theorem poList_pos_elim (cf : List ℚ) (ox oy : ℕ) (maxDev : ℚ) (nl : ℤ) (st : FitState)
    (i : ℕ) (v : ℚ) (hv : (poList cf ox oy maxDev nl st).getD i none = some v)
    (hpos : 0 < v) :
    (∃ d, devAt (nanmedian (diffList cf ox oy st))
        ((diffList cf ox oy st).getD i none) = some d ∧ maxDev < d) ∧
    nl < (countAt st i : ℤ) := by
  unfold poList at hv
  rw [getD_map_range] at hv
  by_cases hlt : i < (diffList cf ox oy st).length
  · rw [if_pos hlt] at hv
    rcases Option.map_eq_some'.1 hv with ⟨d, hd, hde⟩
    by_cases h1 : maxDev < d
    · by_cases h2 : nl < (countAt st i : ℤ)
      · exact ⟨⟨d, hd, h1⟩, h2⟩
      · exfalso
        rw [if_pos h1, if_neg h2] at hde
        rw [← hde] at hpos
        simp at hpos
    · exfalso
      rw [if_neg h1] at hde
      rw [← hde] at hpos
      simp at hpos
  · rw [if_neg hlt] at hv
    cases hv

/-- When an iteration rejects a line, both guards held at that line. -/
theorem stepRejected_some_conditions (lar : Bool) (lsq : LsqOracle) (x0 : List ℚ)
    (ox oy : ℕ) (maxDev : ℚ) (nl : ℤ) (st : FitState) (i : ℕ)
    (h : stepRejected lar lsq x0 ox oy maxDev nl st = some i) :
    (∃ d, devAt (nanmedian (diffList (lsq (lossOf lar) x0 st) ox oy st))
        ((diffList (lsq (lossOf lar) x0 st) ox oy st).getD i none) = some d ∧
      maxDev < d) ∧
    nl < (countAt st i : ℤ) := by
  unfold stepRejected at h
  by_cases hap : anyPosB (poList (lsq (lossOf lar) x0 st) ox oy maxDev nl st) = true
  · rw [if_pos hap] at h
    unfold nanargmax at h
    rcases Option.map_eq_some'.1 h with ⟨p, hp, hpi⟩
    rcases argmaxO_spec _ p.1 p.2 (by rw [hp]) with ⟨hval, hdom⟩
    rcases anyPosB_exists _ hap with ⟨j, w, hjw, hwpos⟩
    have hvpos : 0 < p.2 := lt_of_lt_of_le hwpos (hdom j w hjw)
    rw [hpi] at hval
    exact poList_pos_elim _ ox oy maxDev nl st i p.2 hval hvpos
  · rw [if_neg hap] at h
    cases h

/-- One iteration never pushes an order's weighted count below
`min (previous count, nl_eachorder)`. -/
theorem stepRejected_count (lar : Bool) (lsq : LsqOracle) (x0 : List ℚ)
    (ox oy : ℕ) (maxDev : ℚ) (nl : ℤ) (st : FitState) (i : ℕ) (o : ℚ)
    (h : stepRejected lar lsq x0 ox oy maxDev nl st = some i) :
    min (countOrderVal st o : ℤ) nl ≤ (countOrderVal (rejectAt st i) o : ℤ) := by
  have hca := (stepRejected_some_conditions lar lsq x0 ox oy maxDev nl st i h).2
  rcases countOrderVal_rejectAt st i o with ⟨hle, hge, heq⟩
  by_cases ho : st.order_s.getD i none = some o
  · have hc : countAt st i = countOrderVal st o := by
      unfold countAt
      rw [ho]
    rw [hc] at hca
    omega
  · rw [heq ho]
    exact min_le_left _ _

/-- Across the whole loop, no order's weighted count drops below
`min (initial count, nl_eachorder)`. -/
theorem rejectLoop_count (lar : Bool) (lsq : LsqOracle) (x0 : List ℚ)
    (ox oy : ℕ) (maxDev : ℚ) (nl : ℤ) (k : ℕ) (st : FitState) (o : ℚ) :
    min (countOrderVal st o : ℤ) nl ≤
      (countOrderVal (rejectLoop lar lsq x0 ox oy maxDev nl k st) o : ℤ) := by
  induction k generalizing st with
  | zero =>
    rw [rejectLoop]
    exact min_le_left _ _
  | succ k ih =>
    rw [rejectLoop]
    cases h : stepRejected lar lsq x0 ox oy maxDev nl st with
    | none =>
      exact min_le_left _ _
    | some i =>
      have h1 := stepRejected_count lar lsq x0 ox oy maxDev nl st i o h
      have h2 := ih (rejectAt st i)
      exact le_trans (le_min h1 (min_le_right _ _)) h2

/-- C1: in the iterative mode (`n_iter > 0`), every iteration of
`fit_grating_equation`'s rejection loop either rejects nothing (and breaks)
or performs exactly the three single-index writes `weight[i] = 0`,
`ml_s[i] = nan`, `lc_thar[i] = nan` at one selected line `i`; a line is
rejected only if its absolute deviation from the iteration's median
deviation strictly exceeds `max_dev_threshold` AND its order currently holds
strictly more than `nl_eachorder` positively-weighted lines; consequently,
for every input and every number of iterations, no order's weighted-line
count ever drops below `min (initial count) nl_eachorder`. -/
theorem c1_rejection_loop (lar : Bool) (lsq : LsqOracle) (x0 : List ℚ) (ox oy : ℕ)
    (maxDev : ℚ) (nl : ℤ) (st : FitState) :
    (∀ i, stepRejected lar lsq x0 ox oy maxDev nl st = some i →
      stepResult lar lsq x0 ox oy maxDev nl st = (some i, rejectAt st i) ∧
      (∃ d, devAt (nanmedian (diffList (lsq (lossOf lar) x0 st) ox oy st))
          ((diffList (lsq (lossOf lar) x0 st) ox oy st).getD i none) = some d ∧
        maxDev < d) ∧
      nl < (countAt st i : ℤ)) ∧
    (stepRejected lar lsq x0 ox oy maxDev nl st = none →
      stepResult lar lsq x0 ox oy maxDev nl st = (none, st)) ∧
    (∀ k o, min (countOrderVal st o : ℤ) nl ≤
      (countOrderVal (rejectLoop lar lsq x0 ox oy maxDev nl k st) o : ℤ)) := by
  refine ⟨?_, ?_, ?_⟩
  · intro i h
    have hc := stepRejected_some_conditions lar lsq x0 ox oy maxDev nl st i h
    refine ⟨?_, hc.1, hc.2⟩
    unfold stepResult
    rw [h]
  · intro h
    unfold stepResult
    rw [h]
  · intro k o
    exact rejectLoop_count lar lsq x0 ox oy maxDev nl k st o

/-- Witness for `c1_rejection_loop`: with `max_dev_threshold = 1` and
`nl_eachorder = 0`, the first line (deviation 5 from the median -5) is
rejected, and its order had 2 > 0 weighted lines. -/
theorem c1_witness :
    stepRejected false (fun _ _ _ => []) [] 1 1 1 0 c1State = some 0 ∧
    (0 : ℤ) < (countAt c1State 0 : ℤ) := by
  have hc0 : countAt c1State 0 = 2 := by decide
  have hc1 : countAt c1State 1 = 2 := by decide
  have hthar : c1State.thar = [some 0, some 10] := rfl
  have hcoord : c1State.coord_s = [some 0, some 0] := rfl
  have hords : c1State.order_s = [some 1, some 1] := rfl
  have hord : c1State.order = [some 1, some 1] := rfl
  have hmean : c1State.mlMean = 0 := rfl
  have hstd : c1State.mlStd = 1 := rfl
  have hdiff : diffList [] 1 1 c1State = [some 0, some (-10)] := by
    norm_num [diffList, fittedWaveAt, polyval2d, ijPairs, hthar, hcoord, hords, hord,
      hmean, hstd, List.range_succ]
  have hmed : nanmedian [some (0 : ℚ), some (-10)] = some (-5) := by
    norm_num [nanmedian, sortQ, insertQ]
    intro h
    exact absurd h (by simp)
  have hpo : poList [] 1 1 1 0 c1State = [some 5, some 5] := by
    norm_num [poList, hdiff, hmed, devAt, hc0, hc1, List.range_succ]
  have hstep : stepRejected false (fun _ _ _ => []) [] 1 1 1 0 c1State = some 0 := by
    show (if anyPosB (poList [] 1 1 1 0 c1State)
      then nanargmax (poList [] 1 1 1 0 c1State) else none) = some 0
    rw [hpo]
    norm_num [anyPosB, nanargmax, argmaxO]
  exact ⟨hstep,
    ((c1_rejection_loop false (fun _ _ _ => []) [] 1 1 1 0 c1State).1 0 hstep).2.2⟩

/-- C3 counterexample: with `lar = False` the first fit of the non-iterative
branch minimizes the plain squared residual, not the robust loss, so the
loss trace is `[chi2, lar]`, not the `[lar, lar]` the claim requires. -/
theorem c3_counterexample :
    (fitNoIter false (fun _ x _ => x) [] 3 5 100 ⟨[], [], [], [], [], [], 0, 1⟩).2.2 =
      [Loss.chi2, Loss.lar] ∧
    [Loss.chi2, Loss.lar] ≠ [Loss.lar, Loss.lar] := by
  exact ⟨rfl, by decide⟩

/-- Pointwise description of the bulk rejection writes. -/
theorem bulkReject_getD (kick : List Bool) (st : FitState) (j : ℕ) :
    (bulkReject kick st).weight.getD j false =
      (if kick.getD j false then false else st.weight.getD j false) ∧
    (bulkReject kick st).thar.getD j none =
      (if kick.getD j false then none else st.thar.getD j none) ∧
    (bulkReject kick st).mls.getD j none =
      (if kick.getD j false then none else st.mls.getD j none) := by
  refine ⟨?_, ?_, ?_⟩
  · show ((List.range st.weight.length).map
      (fun j => if kick.getD j false then false else st.weight.getD j false)).getD j false = _
    rw [getD_map_range]
    by_cases hj : j < st.weight.length
    · rw [if_pos hj]
    · rw [if_neg hj]
      rw [List.getD_eq_default _ _ (Nat.le_of_not_lt hj)]
      by_cases hk : kick.getD j false
      · rw [if_pos hk]
      · rw [if_neg hk]
  · show ((List.range st.thar.length).map
      (fun j => if kick.getD j false then none else st.thar.getD j none)).getD j none = _
    rw [getD_map_range]
    by_cases hj : j < st.thar.length
    · rw [if_pos hj]
    · rw [if_neg hj]
      rw [List.getD_eq_default _ _ (Nat.le_of_not_lt hj)]
      by_cases hk : kick.getD j false
      · rw [if_pos hk]
      · rw [if_neg hk]
  · show ((List.range st.mls.length).map
      (fun j => if kick.getD j false then none else st.mls.getD j none)).getD j none = _
    rw [getD_map_range]
    by_cases hj : j < st.mls.length
    · rw [if_pos hj]
    · rw [if_neg hj]
      rw [List.getD_eq_default _ _ (Nat.le_of_not_lt hj)]
      by_cases hk : kick.getD j false
      · rw [if_pos hk]
      · rw [if_neg hk]

/-- The bulk kick mask flags exactly the lines whose deviation from the
median residual exceeds the threshold. -/
theorem bulkKickList_iff (cf : List ℚ) (ox oy : ℕ) (maxDev : ℚ) (st : FitState) (j : ℕ) :
    (bulkKickList cf ox oy maxDev st).getD j false = true ↔
      ∃ d m, (diffList cf ox oy st).getD j none = some d ∧
        nanmedian (diffList cf ox oy st) = some m ∧ maxDev < |d - m| := by
  unfold bulkKickList
  rw [getD_map_range]
  by_cases hj : j < (diffList cf ox oy st).length
  · rw [if_pos hj]
    cases hd : (diffList cf ox oy st).getD j none with
    | none => simp [devAt, hd]
    | some d =>
      cases hm : nanmedian (diffList cf ox oy st) with
      | none => simp [devAt, hm]
      | some m => simp [devAt, hm]
  · rw [if_neg hj]
    have hd : (diffList cf ox oy st).getD j none = none := by
      unfold diffList
      unfold diffList at hj
      rw [getD_map_range]
      rw [if_neg (by simpa using hj)]
    refine iff_of_false (by simp) ?_
    rintro ⟨d, m, hdm, _⟩
    rw [hd] at hdm
    cases hdm

/-- C3 (amended): in the non-iterative mode the surface fit performs exactly
one initial fit — robust (`residual_lar`) when `robust_mode` is set,
plain squared-residual otherwise — then one bulk rejection of every point
whose deviation from the median residual exceeds `max_dev_threshold`
(weight zeroed, product and wavelength set NaN), then exactly one more fit
which ALWAYS uses the robust loss, restarted from `x0`; no further
iteration occurs (the loss trace has exactly these two entries). -/
theorem c3_noiter_branch (lar : Bool) (lsq : LsqOracle) (x0 : List ℚ) (ox oy : ℕ)
    (maxDev : ℚ) (st : FitState) :
    (fitNoIter lar lsq x0 ox oy maxDev st).2.2 = [lossOf lar, Loss.lar] ∧
    (fitNoIter lar lsq x0 ox oy maxDev st).1 =
      lsq Loss.lar x0 ((fitNoIter lar lsq x0 ox oy maxDev st).2.1) ∧
    (fitNoIter lar lsq x0 ox oy maxDev st).2.1 =
      bulkReject (bulkKickList (lsq (lossOf lar) x0 st) ox oy maxDev st) st ∧
    (∀ j, (bulkKickList (lsq (lossOf lar) x0 st) ox oy maxDev st).getD j false = true ↔
      ∃ d m, (diffList (lsq (lossOf lar) x0 st) ox oy st).getD j none = some d ∧
        nanmedian (diffList (lsq (lossOf lar) x0 st) ox oy st) = some m ∧
        maxDev < |d - m|) ∧
    (∀ j, ((fitNoIter lar lsq x0 ox oy maxDev st).2.1).weight.getD j false =
      (if (bulkKickList (lsq (lossOf lar) x0 st) ox oy maxDev st).getD j false
       then false else st.weight.getD j false) ∧
      ((fitNoIter lar lsq x0 ox oy maxDev st).2.1).thar.getD j none =
      (if (bulkKickList (lsq (lossOf lar) x0 st) ox oy maxDev st).getD j false
       then none else st.thar.getD j none)) := by
  refine ⟨rfl, rfl, rfl, ?_, ?_⟩
  · intro j
    exact bulkKickList_iff (lsq (lossOf lar) x0 st) ox oy maxDev st j
  · intro j
    have h := bulkReject_getD (bulkKickList (lsq (lossOf lar) x0 st) ox oy maxDev st) st j
    exact ⟨h.1, h.2.1⟩

/-- In-place writes at other refs do not touch a cell. -/
theorem heapWrite_preserve (h : List PyVal) (rw rml rt : ℕ) (st : FitState) (r : ℕ)
    (h1 : r ≠ rw) (h2 : r ≠ rml) (h3 : r ≠ rt) :
    (heapWrite h rw rml rt st)[r]? = h[r]? := by
  unfold heapWrite
  rw [List.getElem?_set_ne (fun he => h3 he.symm),
    List.getElem?_set_ne (fun he => h2 he.symm),
    List.getElem?_set_ne (fun he => h1 he.symm)]

/-- The rejection loop only ever writes at the three working refs. -/
theorem heapLoop_preserve (lar : Bool) (lsq : LsqOracle) (x0 : List ℚ) (ox oy : ℕ)
    (maxDev : ℚ) (nl : ℤ) (rcs ros rml rw rt ro : ℕ) (mlMean mlStd : ℚ) (k : ℕ)
    (h : List PyVal) (r : ℕ) (h1 : r ≠ rw) (h2 : r ≠ rml) (h3 : r ≠ rt) :
    (heapLoop lar lsq x0 ox oy maxDev nl rcs ros rml rw rt ro mlMean mlStd k h)[r]? =
      h[r]? := by
  induction k generalizing h with
  | zero => rw [heapLoop]
  | succ k ih =>
    rw [heapLoop]
    cases stepRejected lar lsq x0 ox oy maxDev nl
        (heapAssemble h rcs ros rml rw rt ro mlMean mlStd) with
    | some i =>
      rw [ih]
      exact heapWrite_preserve h rw rml rt _ r h1 h2 h3
    | none => rfl

/-- The refs the prelude allocates for `lc_thar`, `ml_s` and `weight`. -/
theorem fitPrelude_refs (h0 : List PyVal) (rc rord rt rp rpc : ℕ) (sqrtO : ℚ → ℚ) :
    (fitPrelude h0 rc rord rt rp rpc sqrtO).rTharC = h0.length + 2 ∧
    (fitPrelude h0 rc rord rt rp rpc sqrtO).rMlS = h0.length + 5 ∧
    (fitPrelude h0 rc rord rt rp rpc sqrtO).rWeight = h0.length + 6 := by
  refine ⟨?_, ?_, ?_⟩ <;> simp [fitPrelude, halloc]

/-- Allocation never disturbs existing cells. -/
theorem fitPrelude_preserve (h0 : List PyVal) (rc rord rt rp rpc : ℕ) (sqrtO : ℚ → ℚ)
    (r : ℕ) (hr : r < h0.length) :
    (fitPrelude h0 rc rord rt rp rpc sqrtO).heap[r]? = h0[r]? := by
  simp only [fitPrelude, halloc]
  rw [List.getElem?_append_left (by simp; omega),
    List.getElem?_append_left (by simp; omega),
    List.getElem?_append_left (by simp; omega),
    List.getElem?_append_left (by simp; omega),
    List.getElem?_append_left (by simp; omega),
    List.getElem?_append_left (by simp; omega),
    List.getElem?_append_left hr]

/-- C9: `fit_grating_equation` never modifies its caller's arrays: the
pre-filter creates fresh copies by boolean-mask indexing, and both the
loop's single-index rejection writes and the non-iterative branch's bulk
writes land only on those internal copies, so the cells holding the caller's
`lc_coord`, `lc_order`, `lc_thar`, `popt` and `pcov` are unchanged. -/
theorem c9_caller_arrays_unchanged (h0 : List PyVal) (rc rord rt rp rpc : ℕ)
    (lar : Bool) (lsq : LsqOracle) (sqrtO : ℚ → ℚ) (ox oy : ℕ) (maxDev : ℚ)
    (nl : ℤ) (n_iter : ℕ) (h1 : rc < h0.length) (h2 : rord < h0.length)
    (h3 : rt < h0.length) (h4 : rp < h0.length) (h5 : rpc < h0.length) :
    (fit_grating_equation_heap h0 rc rord rt rp rpc lar lsq sqrtO ox oy maxDev nl
      n_iter)[rc]? = h0[rc]? ∧
    (fit_grating_equation_heap h0 rc rord rt rp rpc lar lsq sqrtO ox oy maxDev nl
      n_iter)[rord]? = h0[rord]? ∧
    (fit_grating_equation_heap h0 rc rord rt rp rpc lar lsq sqrtO ox oy maxDev nl
      n_iter)[rt]? = h0[rt]? ∧
    (fit_grating_equation_heap h0 rc rord rt rp rpc lar lsq sqrtO ox oy maxDev nl
      n_iter)[rp]? = h0[rp]? ∧
    (fit_grating_equation_heap h0 rc rord rt rp rpc lar lsq sqrtO ox oy maxDev nl
      n_iter)[rpc]? = h0[rpc]? := by
  have key : ∀ r, r < h0.length →
      (fit_grating_equation_heap h0 rc rord rt rp rpc lar lsq sqrtO ox oy maxDev nl
        n_iter)[r]? = h0[r]? := by
    intro r hr
    rcases fitPrelude_refs h0 rc rord rt rp rpc sqrtO with ⟨e1, e2, e3⟩
    unfold fit_grating_equation_heap
    by_cases hn : 0 < n_iter
    · rw [if_pos hn]
      rw [heapLoop_preserve lar lsq _ ox oy maxDev nl _ _ _ _ _ _ _ _ n_iter _ r
        (by omega) (by omega) (by omega)]
      exact fitPrelude_preserve h0 rc rord rt rp rpc sqrtO r hr
    · rw [if_neg hn]
      rw [heapWrite_preserve _ _ _ _ _ r (by omega) (by omega) (by omega)]
      exact fitPrelude_preserve h0 rc rord rt rp rpc sqrtO r hr
  exact ⟨key rc h1, key rord h2, key rt h3, key rp h4, key rpc h5⟩

/-- Witness for `c9_caller_arrays_unchanged` at a concrete store and one
loop iteration. -/
theorem c9_witness :
    (0 < c9Heap.length ∧ 1 < c9Heap.length ∧ 2 < c9Heap.length ∧
      3 < c9Heap.length ∧ 4 < c9Heap.length) ∧
    (fit_grating_equation_heap c9Heap 0 1 2 3 4 false (fun _ x _ => x) id 1 1 100 10
      1)[2]? = c9Heap[2]? := by
  refine ⟨⟨by decide, by decide, by decide, by decide, by decide⟩, ?_⟩
  exact (c9_caller_arrays_unchanged c9Heap 0 1 2 3 4 false (fun _ x _ => x) id 1 1 100 10 1
    (by decide) (by decide) (by decide) (by decide) (by decide)).2.2.1

/-- C10: for all frames, `a.subtract(b)` returns the elementwise quotient
`a / b` — identical to `a.devide(b)` — and not the elementwise difference,
which it visibly disagrees with at `[[6]] - [[2]]`. -/
theorem c10_subtract_is_quotient :
    (∀ a b : List (List ℚ), CCD.subtract a b = ccdQuotient a b) ∧
    (∀ a b : List (List ℚ), CCD.subtract a b = CCD.devide a b) ∧
    CCD.subtract [[(6 : ℚ)]] [[2]] = [[3]] ∧
    ccdDifference [[(6 : ℚ)]] [[2]] = [[4]] ∧
    CCD.subtract [[(6 : ℚ)]] [[2]] ≠ ccdDifference [[(6 : ℚ)]] [[2]] := by
  refine ⟨fun a b => rfl, fun a b => rfl, ?_, ?_, ?_⟩
  · norm_num [CCD.subtract]
  · norm_num [ccdDifference]
  · norm_num [CCD.subtract, ccdDifference]

